import Mathlib

/-!
# DetourPatcher: a shallow embedding

Model of `src/JKA_YBEProxy/DetourPatcher/DetourPatcher.cpp`, the inline-hooking
engine for 32-bit x86 code.

* Code memory is a function from addresses to bytes. Pointers and `size_t` are
  32 bits wide: every address is taken modulo `2^32` when memory is accessed and
  every `unsigned int` / `size_t` result is reduced modulo `2^32`.
* `malloc` is a parameter: the function from the requested size to the address
  of the block it hands out.
* `UnProtect` / `ReProtect` change page protections only, never memory contents,
  so they do not appear in the memory transformers below.
* The `goto prefix` loop of `DisAssemble` and the `while` loop of `GetLen` are
  modelled with fuel; `none` means that the loop did not finish within the fuel.
-/

namespace DetourPatcher

/-! ## Memory -/

/-- Number of addresses of the 32-bit address space, and modulus of `unsigned int`
and `size_t` arithmetic. -/
abbrev U32 : Nat := 4294967296

/-- Code memory: the byte stored at each address. -/
abbrev Mem := Nat → Nat

/-- Read of one `unsigned char` through a 32-bit pointer: `*p`. -/
def rd8 (m : Mem) (p : Nat) : Nat := m (p % U32) % 256

/-- Store of one `unsigned char` through a 32-bit pointer: `*p = v`. -/
def wr8 (m : Mem) (p v : Nat) : Mem :=
  fun a => if a = p % U32 then v % 256 else m a

/-- Little-endian read of an `unsigned int` through a 32-bit pointer:
`*(unsigned int *) p`. -/
def rd32 (m : Mem) (p : Nat) : Nat :=
  rd8 m p + 256 * rd8 m (p + 1) + 65536 * rd8 m (p + 2) + 16777216 * rd8 m (p + 3)

/-- Little-endian store of an `unsigned int` through a 32-bit pointer:
`*(unsigned int *) p = v`. -/
def wr32 (m : Mem) (p v : Nat) : Mem :=
  wr8 (wr8 (wr8 (wr8 m p (v % 256)) (p + 1) (v / 256 % 256)) (p + 2) (v / 65536 % 256))
    (p + 3) (v / 16777216 % 256)

/-- Library `memcpy(dst, src, n)`: byte `i < n` of the destination receives byte `i`
of the source as it was before the call. -/
def memcpy (m : Mem) (dst src n : Nat) : Mem :=
  fun a =>
    if a < U32 ∧ (a + U32 - dst % U32) % U32 < n then
      m ((src + (a + U32 - dst % U32) % U32) % U32)
    else m a

/-- Unsigned 32-bit subtraction `a - b`. -/
def sub32 (a b : Nat) : Nat := (a % U32 + U32 - b % U32) % U32

/-! ## Opcode flags and tables -/

def C_ERROR : Nat := 0xFFFFFFFF
def C_PREFIX : Nat := 0x00000001
def C_66 : Nat := 0x00000002
def C_67 : Nat := 0x00000004
def C_DATA66 : Nat := 0x00000008
def C_DATA1 : Nat := 0x00000010
def C_DATA2 : Nat := 0x00000020
def C_DATA4 : Nat := 0x00000040
def C_MEM67 : Nat := 0x00000080
def C_MEM1 : Nat := 0x00000100
def C_MEM2 : Nat := 0x00000200
def C_MEM4 : Nat := 0x00000400
def C_MODRM : Nat := 0x00000800
def C_DATAW0 : Nat := 0x00001000
def C_FUCKINGTEST : Nat := 0x00002000
def C_TABLE_0F : Nat := 0x00004000

/-- Flags of the one-byte opcode map, indexed by opcode byte (source `table_1`). -/
def table_1 : List Nat :=
  [C_MODRM, C_MODRM, C_MODRM, C_MODRM, -- 00..03
   C_DATAW0, C_DATAW0, 0, 0, -- 04..07
   C_MODRM, C_MODRM, C_MODRM, C_MODRM, -- 08..0B
   C_DATAW0, C_DATAW0, 0, C_TABLE_0F, -- 0C..0F
   C_MODRM, C_MODRM, C_MODRM, C_MODRM, -- 10..13
   C_DATAW0, C_DATAW0, 0, 0, -- 14..17
   C_MODRM, C_MODRM, C_MODRM, C_MODRM, -- 18..1B
   C_DATAW0, C_DATAW0, 0, 0, -- 1C..1F
   C_MODRM, C_MODRM, C_MODRM, C_MODRM, -- 20..23
   C_DATAW0, C_DATAW0, C_PREFIX, 0, -- 24..27
   C_MODRM, C_MODRM, C_MODRM, C_MODRM, -- 28..2B
   C_DATAW0, C_DATAW0, C_PREFIX, 0, -- 2C..2F
   C_MODRM, C_MODRM, C_MODRM, C_MODRM, -- 30..33
   C_DATAW0, C_DATAW0, C_PREFIX, 0, -- 34..37
   C_MODRM, C_MODRM, C_MODRM, C_MODRM, -- 38..3B
   C_DATAW0, C_DATAW0, C_PREFIX, 0, -- 3C..3F
   0, 0, 0, 0, -- 40..43
   0, 0, 0, 0, -- 44..47
   0, 0, 0, 0, -- 48..4B
   0, 0, 0, 0, -- 4C..4F
   0, 0, 0, 0, -- 50..53
   0, 0, 0, 0, -- 54..57
   0, 0, 0, 0, -- 58..5B
   0, 0, 0, 0, -- 5C..5F
   0, 0, C_MODRM, C_MODRM, -- 60..63
   C_PREFIX, C_PREFIX, C_PREFIX + C_66, C_PREFIX + C_67, -- 64..67
   C_DATA66, C_MODRM + C_DATA66, C_DATA1, C_MODRM + C_DATA1, -- 68..6B
   0, 0, 0, 0, -- 6C..6F
   C_DATA1, C_DATA1, C_DATA1, C_DATA1, -- 70..73
   C_DATA1, C_DATA1, C_DATA1, C_DATA1, -- 74..77
   C_DATA1, C_DATA1, C_DATA1, C_DATA1, -- 78..7B
   C_DATA1, C_DATA1, C_DATA1, C_DATA1, -- 7C..7F
   C_MODRM + C_DATA1, C_MODRM + C_DATA66, C_MODRM + C_DATA1, C_MODRM + C_DATA1, -- 80..83
   C_MODRM, C_MODRM, C_MODRM, C_MODRM, -- 84..87
   C_MODRM, C_MODRM, C_MODRM, C_MODRM, -- 88..8B
   C_MODRM, C_MODRM, C_MODRM, C_MODRM, -- 8C..8F
   0, 0, 0, 0, -- 90..93
   0, 0, 0, 0, -- 94..97
   0, 0, C_DATA66 + C_MEM2, 0, -- 98..9B
   0, 0, 0, 0, -- 9C..9F
   C_MEM67, C_MEM67, C_MEM67, C_MEM67, -- A0..A3
   0, 0, 0, 0, -- A4..A7
   C_DATA1, C_DATA66, 0, 0, -- A8..AB
   0, 0, 0, 0, -- AC..AF
   C_DATA1, C_DATA1, C_DATA1, C_DATA1, -- B0..B3
   C_DATA1, C_DATA1, C_DATA1, C_DATA1, -- B4..B7
   C_DATA66, C_DATA66, C_DATA66, C_DATA66, -- B8..BB
   C_DATA66, C_DATA66, C_DATA66, C_DATA66, -- BC..BF
   C_MODRM + C_DATA1, C_MODRM + C_DATA1, C_DATA2, 0, -- C0..C3
   C_MODRM, C_MODRM, C_MODRM + C_DATA66, C_MODRM + C_DATA66, -- C4..C7
   C_DATA2 + C_DATA1, 0, C_DATA2, 0, -- C8..CB
   0, C_DATA1 + C_DATA4, 0, 0, -- CC..CF
   C_MODRM, C_MODRM, C_MODRM, C_MODRM, -- D0..D3
   0, 0, 0, 0, -- D4..D7
   C_MODRM, C_MODRM, C_MODRM, C_MODRM, -- D8..DB
   C_MODRM, C_MODRM, C_MODRM, C_MODRM, -- DC..DF
   C_DATA1, C_DATA1, C_DATA1, C_DATA1, -- E0..E3
   C_DATA1, C_DATA1, C_DATA1, C_DATA1, -- E4..E7
   C_DATA66, C_DATA66, C_DATA66 + C_MEM2, C_DATA1, -- E8..EB
   0, 0, 0, 0, -- EC..EF
   C_PREFIX, 0, C_PREFIX, C_PREFIX, -- F0..F3
   0, 0, C_FUCKINGTEST, C_FUCKINGTEST, -- F4..F7
   0, 0, 0, 0, -- F8..FB
   0, 0, C_MODRM, C_MODRM] -- FC..FF

/-- Flags of the two-byte opcode map reached through the `0F` escape (source `table_0F`). -/
def table_0F : List Nat :=
  [C_MODRM, C_MODRM, C_MODRM, C_MODRM, -- 00..03
   C_ERROR, C_ERROR, 0, C_ERROR, -- 04..07
   0, 0, 0, 0, -- 08..0B
   C_ERROR, C_ERROR, C_ERROR, C_ERROR, -- 0C..0F
   C_ERROR, C_ERROR, C_ERROR, C_ERROR, -- 10..13
   C_ERROR, C_ERROR, C_ERROR, C_ERROR, -- 14..17
   C_ERROR, C_ERROR, C_ERROR, C_ERROR, -- 18..1B
   C_ERROR, C_ERROR, C_ERROR, C_ERROR, -- 1C..1F
   C_ERROR, C_ERROR, C_ERROR, C_ERROR, -- 20..23
   C_ERROR, C_ERROR, C_ERROR, C_ERROR, -- 24..27
   C_ERROR, C_ERROR, C_ERROR, C_ERROR, -- 28..2B
   C_ERROR, C_ERROR, C_ERROR, C_ERROR, -- 2C..2F
   C_ERROR, C_ERROR, C_ERROR, C_ERROR, -- 30..33
   C_ERROR, C_ERROR, C_ERROR, C_ERROR, -- 34..37
   C_ERROR, C_ERROR, C_ERROR, C_ERROR, -- 38..3B
   C_ERROR, C_ERROR, C_ERROR, C_ERROR, -- 3C..3F
   C_ERROR, C_ERROR, C_ERROR, C_ERROR, -- 40..43
   C_ERROR, C_ERROR, C_ERROR, C_ERROR, -- 44..47
   C_ERROR, C_ERROR, C_ERROR, C_ERROR, -- 48..4B
   C_ERROR, C_ERROR, C_ERROR, C_ERROR, -- 4C..4F
   C_ERROR, C_ERROR, C_ERROR, C_ERROR, -- 50..53
   C_ERROR, C_ERROR, C_ERROR, C_ERROR, -- 54..57
   C_ERROR, C_ERROR, C_ERROR, C_ERROR, -- 58..5B
   C_ERROR, C_ERROR, C_ERROR, C_ERROR, -- 5C..5F
   C_ERROR, C_ERROR, C_ERROR, C_ERROR, -- 60..63
   C_ERROR, C_ERROR, C_ERROR, C_ERROR, -- 64..67
   C_ERROR, C_ERROR, C_ERROR, C_ERROR, -- 68..6B
   C_ERROR, C_ERROR, C_ERROR, C_ERROR, -- 6C..6F
   C_ERROR, C_ERROR, C_ERROR, C_ERROR, -- 70..73
   C_ERROR, C_ERROR, C_ERROR, C_ERROR, -- 74..77
   C_ERROR, C_ERROR, C_ERROR, C_ERROR, -- 78..7B
   C_ERROR, C_ERROR, C_ERROR, C_ERROR, -- 7C..7F
   C_DATA66, C_DATA66, C_DATA66, C_DATA66, -- 80..83
   C_DATA66, C_DATA66, C_DATA66, C_DATA66, -- 84..87
   C_DATA66, C_DATA66, C_DATA66, C_DATA66, -- 88..8B
   C_DATA66, C_DATA66, C_DATA66, C_DATA66, -- 8C..8F
   C_MODRM, C_MODRM, C_MODRM, C_MODRM, -- 90..93
   C_MODRM, C_MODRM, C_MODRM, C_MODRM, -- 94..97
   C_MODRM, C_MODRM, C_MODRM, C_MODRM, -- 98..9B
   C_MODRM, C_MODRM, C_MODRM, C_MODRM, -- 9C..9F
   0, 0, 0, C_MODRM, -- A0..A3
   C_MODRM + C_DATA1, C_MODRM, C_ERROR, C_ERROR, -- A4..A7
   0, 0, 0, C_MODRM, -- A8..AB
   C_MODRM + C_DATA1, C_MODRM, C_ERROR, C_MODRM, -- AC..AF
   C_MODRM, C_MODRM, C_MODRM, C_MODRM, -- B0..B3
   C_MODRM, C_MODRM, C_MODRM, C_MODRM, -- B4..B7
   C_ERROR, C_ERROR, C_MODRM + C_DATA1, C_MODRM, -- B8..BB
   C_MODRM, C_MODRM, C_MODRM, C_MODRM, -- BC..BF
   C_MODRM, C_MODRM, C_ERROR, C_ERROR, -- C0..C3
   C_ERROR, C_ERROR, C_ERROR, C_ERROR, -- C4..C7
   0, 0, 0, 0, -- C8..CB
   0, 0, 0, 0, -- CC..CF
   C_ERROR, C_ERROR, C_ERROR, C_ERROR, -- D0..D3
   C_ERROR, C_ERROR, C_ERROR, C_ERROR, -- D4..D7
   C_ERROR, C_ERROR, C_ERROR, C_ERROR, -- D8..DB
   C_ERROR, C_ERROR, C_ERROR, C_ERROR, -- DC..DF
   C_ERROR, C_ERROR, C_ERROR, C_ERROR, -- E0..E3
   C_ERROR, C_ERROR, C_ERROR, C_ERROR, -- E4..E7
   C_ERROR, C_ERROR, C_ERROR, C_ERROR, -- E8..EB
   C_ERROR, C_ERROR, C_ERROR, C_ERROR, -- EC..EF
   C_ERROR, C_ERROR, C_ERROR, C_ERROR, -- F0..F3
   C_ERROR, C_ERROR, C_ERROR, C_ERROR, -- F4..F7
   C_ERROR, C_ERROR, C_ERROR, C_ERROR, -- F8..FB
   C_ERROR, C_ERROR, C_ERROR, C_ERROR] -- FC..FF

/-! ## DisAssemble -/

/-- State of `DisAssemble` between two of its steps: `n = iptr - iptr0` bytes
consumed so far, the last opcode byte `b`, and the flags `f`. -/
structure Decode where
  n : Nat
  b : Nat
  f : Nat

/-- The step `if ( f & C_FUCKINGTEST )`: for `F6` / `F7` the `reg` field of the next
byte (at offset `n`, not consumed) selects the flags. -/
def DisAssemble_test (m : Mem) (iptr0 n f : Nat) : Nat :=
  if f &&& C_FUCKINGTEST ≠ 0 then
    (if rd8 m (iptr0 + n) &&& 0x38 = 0x00 then C_MODRM + C_DATAW0 else C_MODRM)
  else f

/-- From the label `prefix:` to the end of `if ( f &C_TABLE_0F )`: reads the byte at
offset `n`, merges its `table_1` flags into `f`, and follows the `0F` escape. -/
def DisAssemble_opcode (m : Mem) (iptr0 n f : Nat) : Decode :=
  let b := rd8 m (iptr0 + n)
  let f1 := DisAssemble_test m iptr0 (n + 1) (f ||| table_1.getD b 0)
  if f1 &&& C_TABLE_0F ≠ 0 then
    ⟨n + 2, rd8 m (iptr0 + (n + 1)), table_0F.getD (rd8 m (iptr0 + (n + 1))) 0⟩
  else ⟨n + 1, b, f1⟩

/-- The step `if ( f & C_DATAW0 )`. -/
def DisAssemble_dataw0 (b f : Nat) : Nat :=
  if f &&& C_DATAW0 ≠ 0 then
    (if b &&& 0x01 ≠ 0 then f ||| C_DATA66 else f ||| C_DATA1)
  else f

/-- The body of `if ( f &C_MODRM )`: reads the ModRM byte and, with 32-bit
addressing and `rm = 100`, the SIB byte; returns the number of bytes consumed so
far and the updated flags. -/
def DisAssemble_modrm (m : Mem) (iptr0 n f : Nat) : Nat × Nat :=
  let b := rd8 m (iptr0 + n)
  let mod := b &&& 0xC0
  let rm := b &&& 0x07
  if mod ≠ 0xC0 then
    if f &&& C_67 ≠ 0 then
      let f1 := if mod = 0x00 ∧ rm = 0x06 then f ||| C_MEM2 else f
      let f2 := if mod = 0x40 then f1 ||| C_MEM1 else f1
      let f3 := if mod = 0x80 then f2 ||| C_MEM2 else f2
      (n + 1, f3)
    else
      let f1 := if mod = 0x40 then f ||| C_MEM1 else f
      let f2 := if mod = 0x80 then f1 ||| C_MEM4 else f1
      let rm2 := if rm = 0x04 then rd8 m (iptr0 + (n + 1)) &&& 0x07 else rm
      let n2 := if rm = 0x04 then n + 2 else n + 1
      let f3 := if rm2 = 0x05 ∧ mod = 0x00 then f2 ||| C_MEM4 else f2
      (n2, f3)
  else (n + 1, f)

/-- The step `if ( f & C_MEM67 )`. -/
def DisAssemble_mem67 (f : Nat) : Nat :=
  if f &&& C_MEM67 ≠ 0 then
    (if f &&& C_67 ≠ 0 then f ||| C_MEM2 else f ||| C_MEM4)
  else f

/-- The step `if ( f & C_DATA66 )`. -/
def DisAssemble_data66 (f : Nat) : Nat :=
  if f &&& C_DATA66 ≠ 0 then
    (if f &&& C_66 ≠ 0 then f ||| C_DATA2 else f ||| C_DATA4)
  else f

/-- The six final steps, from `if ( f & C_MEM1 )` to `if ( f & C_DATA4 )`: the
displacement and immediate bytes are skipped. -/
def DisAssemble_skip (n f : Nat) : Nat :=
  n + (if f &&& C_MEM1 ≠ 0 then 1 else 0) + (if f &&& C_MEM2 ≠ 0 then 2 else 0)
    + (if f &&& C_MEM4 ≠ 0 then 4 else 0) + (if f &&& C_DATA1 ≠ 0 then 1 else 0)
    + (if f &&& C_DATA2 ≠ 0 then 2 else 0) + (if f &&& C_DATA4 ≠ 0 then 4 else 0)

/-- The part of `DisAssemble` after the prefix loop, from `if ( f & C_DATAW0 )` to
the end: `n` bytes have been consumed, `b` is the opcode byte and `f` its flags.
Returns the value stored in `*osizeptr`, that is `(size_t)(iptr - iptr0)`. -/
def DisAssemble_operands (m : Mem) (iptr0 n b f : Nat) : Nat :=
  let f1 := DisAssemble_dataw0 b f
  let r := if f1 &&& C_MODRM ≠ 0 then DisAssemble_modrm m iptr0 n f1 else (n, f1)
  DisAssemble_skip r.1 (DisAssemble_data66 (DisAssemble_mem67 r.2)) % U32

/-- The loop of `DisAssemble` from the label `prefix:`; one unit of fuel per pass.
`n = iptr - iptr0` bytes have been consumed and `f` holds the flags kept from the
prefixes read so far. The result is the value stored in `*osizeptr`
(`C_ERROR` on a decode failure), or `none` when the fuel runs out. -/
def DisAssemble_loop : Nat → Mem → Nat → Nat → Nat → Option Nat
  | 0, _, _, _, _ => none
  | fuel + 1, m, iptr0, n, f =>
    let s := DisAssemble_opcode m iptr0 n f
    if s.f = C_ERROR then some C_ERROR
    else if s.f &&& C_PREFIX ≠ 0 then
      DisAssemble_loop fuel m iptr0 s.n (s.f &&& (0xFFFFFFFF ^^^ C_PREFIX))
    else some (DisAssemble_operands m iptr0 s.n s.b s.f)

/-- Bound on the number of passes of the prefix loop in the model: the longest run
of prefix bytes for which neither the byte count `iptr - iptr0` nor the running
total of `GetLen` can wrap around `2^32`. -/
def PREFIX_FUEL : Nat := 4294967232

/-- `DisAssemble( iptr0, osizeptr )`: the value it stores in `*osizeptr`, the length
of the instruction at `iptr0` or the sentinel `C_ERROR`. -/
def DisAssemble (m : Mem) (iptr0 : Nat) : Option Nat :=
  DisAssemble_loop PREFIX_FUEL m iptr0 0 0

/-! ## The detour controller -/

/-- The `while( iSize < 5 )` loop of `GetLen`, one unit of fuel per pass; the value
`DisAssemble` stored in `iLen` is added to the pointer and to `iSize` as it is. -/
def GetLen_loop : Nat → Mem → Nat → Nat → Option Nat
  | 0, _, _, iSize => if iSize < 5 then none else some iSize
  | fuel + 1, m, pAddress, iSize =>
    if iSize < 5 then
      match DisAssemble m pAddress with
      | none => none
      | some iLen => GetLen_loop fuel m ((pAddress + iLen) % U32) ((iSize + iLen) % U32)
    else some iSize

/-- `GetLen( pAddress )`. -/
def GetLen (fuel : Nat) (m : Mem) (pAddress : Nat) : Option Nat :=
  GetLen_loop fuel m pAddress 0

/-- `GetTramp( pAddress, iLen )`: the memory after the call and the returned
trampoline pointer. The model describes the source for `iLen + 5 < 2^32`: when
`iLen + 5` wraps past `2^32` the source copies `iLen` bytes into the smaller block
`malloc` returned and faults, which the total `memcpy` of the model does not show. -/
def GetTramp (malloc : Nat → Nat) (m : Mem) (pAddress iLen : Nat) : Mem × Nat :=
  let pTramp := malloc ((iLen + 5) % U32) % U32
  let m1 := memcpy m pTramp pAddress iLen
  let m2 := wr8 m1 (pTramp + iLen) 0xE9
  let m3 := wr32 m2 (pTramp + iLen + 1) (sub32 (pAddress + iLen) (pTramp + iLen + 5))
  (m3, pTramp)

/-- `InlineFetch( pAddress )`. -/
def InlineFetch (m : Mem) (pAddress : Nat) : Nat :=
  ((pAddress + 5) % U32 + rd32 m (pAddress + 1)) % U32

/-- `Attach( pAddress, pNewAddress )`: the memory after the call and the returned
trampoline pointer; `none` when `GetLen` does not return. -/
def Attach (fuel : Nat) (malloc : Nat → Nat) (m : Mem) (pAddress pNewAddress : Nat) :
    Option (Mem × Nat) :=
  match GetLen fuel m pAddress with
  | none => none
  | some iLen =>
    let r := GetTramp malloc m pAddress iLen
    let m1 := wr8 r.1 pAddress 0xE9
    let m2 := wr32 m1 (pAddress + 1) (sub32 pNewAddress (pAddress + 5))
    some (m2, r.2)

/-- `Detach( pAddress, pTramp )`: the memory after the call and the returned
address; `none` when `GetLen` does not return. -/
def Detach (fuel : Nat) (m : Mem) (pAddress pTramp : Nat) : Option (Mem × Nat) :=
  match GetLen fuel m pAddress with
  | none => none
  | some iLen => some (memcpy m pAddress pTramp iLen, pAddress)

/-- `InlinePatch( pAddress, pNewAddress )`: the memory after the call and the
returned previous target. -/
def InlinePatch (m : Mem) (pAddress pNewAddress : Nat) : Mem × Nat :=
  let pReturnAddress := InlineFetch m pAddress
  (wr32 m (pAddress + 1) (sub32 pNewAddress (pAddress + 5)), pReturnAddress)

/-- `Patch( pAddress, bByte )`: the memory after the call. -/
def Patch (m : Mem) (pAddress bByte : Nat) : Mem :=
  wr8 m pAddress bByte

/-! ## The instructions `GetLen` decodes -/

/-- Whether every `DisAssemble` call made by the first `fuel` passes of the loop of
`GetLen`, started at `pAddress` with running total `iSize`, returns a length
rather than the sentinel `C_ERROR`. -/
def GetLen_supported : Nat → Mem → Nat → Nat → Bool
  | 0, _, _, _ => true
  | fuel + 1, m, pAddress, iSize =>
    if iSize < 5 then
      match DisAssemble m pAddress with
      | none => false
      | some iLen =>
        iLen != C_ERROR &&
          GetLen_supported fuel m ((pAddress + iLen) % U32) ((iSize + iLen) % U32)
    else true

/-- Lengths `DisAssemble` reports for `k` consecutive instructions, the first one at
`p` and each next one at the end of the previous one; `none` when one of the `k`
calls reports `C_ERROR`. -/
def insnLens (m : Mem) : Nat → Nat → Option (List Nat)
  | 0, _ => some []
  | k + 1, p =>
    match DisAssemble m p with
    | none => none
    | some n =>
      if n = C_ERROR then none
      else (insnLens m k ((p + n) % U32)).map (fun ls => n :: ls)

/-! ## Test memories -/

/-- Memory holding the bytes `bs` from address `base` on and `fill` elsewhere. -/
def memOf (base : Nat) (bs : List Nat) (fill : Nat) : Mem :=
  fun a => if base ≤ a then bs.getD (a - base) fill else fill

/-- The prologue `push ebp; mov ebp, esp; sub esp, 10h` followed by `nop`s. -/
def prologueMem : Mem := memOf 0x1000 [0x55, 0x8B, 0xEC, 0x83, 0xEC, 0x10] 0x90

/-- The instruction `push ebp` followed by the unsupported opcode `0F 04`. -/
def pushThenBadMem : Mem := memOf 0x1000 [0x55, 0x0F, 0x04] 0x90

/-- The instruction `push 5` followed by the unsupported opcode `0F 10`. -/
def pushImmThenBadMem : Mem := memOf 0x1000 [0x6A, 0x05, 0x0F, 0x10] 0x90

/-- The call `E8 FB 0F 00 00` at `0x2000`, whose target is `0x3000`. -/
def callMem : Mem := memOf 0x2000 [0xE8, 0xFB, 0x0F, 0x00, 0x00] 0x90

/-- The allocator of the examples: every block is handed out at `0x200000`. -/
def mallocAt (_size : Nat) : Nat := 0x200000

/-- The instruction `test eax, 12345678h` (`F7 /0` with a 32-bit immediate). -/
def testImm32Mem : Mem := memOf 0x1000 [0xF7, 0xC0, 0x78, 0x56, 0x34, 0x12] 0x90

/-- The instruction `test ax, 1234h` (`66 F7 /0` with a 16-bit immediate). -/
def testImm16Mem : Mem := memOf 0x1000 [0x66, 0xF7, 0xC0, 0x34, 0x12] 0x90

/-- The instruction `jo` with a 32-bit displacement (`0F 80 rel32`). -/
def jccRel32Mem : Mem := memOf 0x1000 [0x0F, 0x80, 0x10, 0x00, 0x00, 0x00] 0x90

/-- The instruction `jo` with a 16-bit displacement (`66 0F 80 rel16`). -/
def jccRel16Mem : Mem := memOf 0x1000 [0x66, 0x0F, 0x80, 0x10, 0x00] 0x90

/-- The instruction `mov byte ptr [ebp-4], 0` (`C6 45 FC 00`). -/
def movByteImm8Mem : Mem := memOf 0x1000 [0xC6, 0x45, 0xFC, 0x00] 0x90

/-- The instruction `int 21h` (`CD 21`). -/
def intMem : Mem := memOf 0x1000 [0xCD, 0x21] 0x90

/-- The instruction `aam` (`D4 0A`). -/
def aamMem : Mem := memOf 0x1000 [0xD4, 0x0A] 0x90

/-- A second allocator: every block is handed out at `0x300000`. -/
def mallocAt2 (_size : Nat) : Nat := 0x300000

/-- The instruction `mov eax, [esp+4]` (`8B 44 24 04`: ModRM, SIB and an 8-bit
displacement). -/
def movSibMem : Mem := memOf 0x1000 [0x8B, 0x44, 0x24, 0x04] 0x90

/-- The instruction `rep movsd` (`F3 A5`). -/
def repMovsMem : Mem := memOf 0x1000 [0xF3, 0xA5] 0x90

/-! ## Page protection (the path without `WIN32`) -/

/-- `UnProtect( pAddress, iLen )` without `WIN32`: the page addresses passed to
`mprotect`, in call order; every call is for `getpagesize()` bytes with
`PROT_READ | PROT_WRITE | PROT_EXEC`. -/
def UnProtect (getpagesize pAddress iLen : Nat) : List Nat :=
  let iPage1 := pAddress % U32 &&& (0xFFFFFFFF ^^^ (getpagesize - 1))
  let iPage2 := (pAddress + iLen) % U32 &&& (0xFFFFFFFF ^^^ (getpagesize - 1))
  if iPage1 = iPage2 then [iPage1] else [iPage1, iPage2]

/-- Start address of the page of size `pagesize` that contains the address `x`. -/
def pageOf (pagesize x : Nat) : Nat := x / pagesize * pagesize

/-! ## Prefix runs and the operands of the claims -/

/-- Whether `b` is a prefix byte for `DisAssemble`: its `table_1` entry carries
`C_PREFIX`. -/
def isPrefixByte (b : Nat) : Bool := table_1.getD b 0 &&& C_PREFIX != 0

/-- The flags `f` held at the label `prefix:` once the `k` bytes from offset `n` on
have been read as prefixes (each pass does `f |= table_1[b]` and then
`f &= ~C_PREFIX`), starting from the flags `f`. -/
def prefixFlags (m : Mem) (iptr0 : Nat) : Nat → Nat → Nat → Nat
  | 0, _, f => f
  | k + 1, n, f =>
    prefixFlags m iptr0 k (n + 1)
      ((f ||| table_1.getD (rd8 m (iptr0 + n)) 0) &&& (0xFFFFFFFF ^^^ C_PREFIX))

/-- The SIB bytes the specification gives for the ModRM byte `modrm` with 32-bit
addressing: one exactly when `mod` is not `11` and `rm` is `100`. -/
def specSibBytes (modrm : Nat) : Nat :=
  if modrm / 64 ≠ 3 ∧ modrm % 8 = 4 then 1 else 0

/-- The displacement bytes the specification gives for the ModRM byte `modrm` and the
SIB byte `sib` with 32-bit addressing: 1 when `mod = 01`, 4 when `mod = 10`, 4 when
`mod = 00` and either `rm = 101` or `rm = 100` with SIB base `101`, else 0. -/
def specDispBytes (modrm sib : Nat) : Nat :=
  if modrm / 64 = 1 then 1
  else if modrm / 64 = 2 then 4
  else if modrm / 64 = 0 ∧ (modrm % 8 = 5 ∨ (modrm % 8 = 4 ∧ sib % 8 = 5)) then 4
  else 0

/-- The immediate bytes `DisAssemble` skips for the final flags `f`: the steps
`if ( f & C_DATA1 )`, `if ( f & C_DATA2 )` and `if ( f & C_DATA4 )`. -/
def immBytes (f : Nat) : Nat :=
  (if f &&& C_DATA1 ≠ 0 then 1 else 0) + (if f &&& C_DATA2 ≠ 0 then 2 else 0)
    + (if f &&& C_DATA4 ≠ 0 then 4 else 0)

/-- The displacement flag the ModRM step adds with 32-bit addressing. -/
def dispFlag32 (modrm sib : Nat) : Nat :=
  if modrm / 64 = 1 then C_MEM1
  else if modrm / 64 = 2 then C_MEM4
  else if modrm / 64 = 0 ∧ (modrm % 8 = 5 ∨ (modrm % 8 = 4 ∧ sib % 8 = 5)) then C_MEM4
  else 0

/-- The displacement flag the ModRM step adds with 16-bit addressing. -/
def dispFlag16 (modrm : Nat) : Nat :=
  if modrm / 64 = 0 ∧ modrm % 8 = 6 then C_MEM2
  else if modrm / 64 = 1 then C_MEM1
  else if modrm / 64 = 2 then C_MEM2
  else 0

/-- Bound on the bytes after the opcode, as a property of the opcode byte `b` and its
flags `f`. -/
def tailAtMost (bound b f : Nat) : Prop :=
  (DisAssemble_dataw0 b f &&& C_MODRM ≠ 0 →
    ∀ e ∈ [0, C_MEM1, C_MEM2, C_MEM4],
      2 + DisAssemble_skip 0 (DisAssemble_data66 (DisAssemble_mem67 (DisAssemble_dataw0 b f ||| e)))
        ≤ bound) ∧
  (DisAssemble_dataw0 b f &&& C_MODRM = 0 →
    DisAssemble_skip 0 (DisAssemble_data66 (DisAssemble_mem67 (DisAssemble_dataw0 b f))) ≤ bound)

instance tailAtMost_decidable (bound b f : Nat) : Decidable (tailAtMost bound b f) := by
  unfold tailAtMost; infer_instance

/-- The displacement bytes skipped for a displacement flag of the ModRM step with
32-bit addressing. -/
def memBytes (e : Nat) : Nat := if e = C_MEM1 then 1 else if e = C_MEM4 then 4 else 0

/-- With 32-bit addressing, what follows a ModRM byte for the opcode byte `b` with
flags `f`: the ModRM step is taken exactly when `f` carries `C_MODRM`, and then the
bytes skipped after ModRM and SIB are the displacement and the immediate. -/
def modrmTail (b f : Nat) : Prop :=
  DisAssemble_dataw0 b f &&& C_67 = 0 ∧
  (DisAssemble_dataw0 b f &&& C_MODRM ≠ 0 ↔ f &&& C_MODRM ≠ 0) ∧
  (f &&& C_MODRM ≠ 0 → ∀ e ∈ [0, C_MEM1, C_MEM4],
    DisAssemble_skip 0 (DisAssemble_data66 (DisAssemble_mem67 (DisAssemble_dataw0 b f ||| e))) =
      memBytes e + immBytes (DisAssemble_data66 (DisAssemble_dataw0 b f)))

instance modrmTail_decidable (b f : Nat) : Decidable (modrmTail b f) := by
  unfold modrmTail; infer_instance

/-! ## Effect traces -/

/-- One effect of the detour controller: a `malloc` or `free` call, the store of one
byte at an address, or a call of `UnProtect` or `ReProtect` with its address and
length. -/
inductive Effect where
  | malloc (size : Nat)
  | store (addr : Nat)
  | unprotect (addr len : Nat)
  | reprotect (addr len : Nat)
  | free (ptr : Nat)

/-- The store of `wr8`. -/
def wr8_trace (p : Nat) : List Effect := [Effect.store (p % U32)]

/-- The four byte stores of `wr32`. -/
def wr32_trace (p : Nat) : List Effect :=
  [Effect.store (p % U32), Effect.store ((p + 1) % U32), Effect.store ((p + 2) % U32),
    Effect.store ((p + 3) % U32)]

/-- The `n` byte stores of `memcpy(dst, src, n)`. -/
def memcpy_trace (dst n : Nat) : List Effect :=
  (List.range n).map (fun i => Effect.store ((dst + i) % U32))

/-- The effects of `GetTramp( pAddress, iLen )`, in program order. -/
def GetTramp_trace (malloc : Nat → Nat) (iLen : Nat) : List Effect :=
  let pTramp := malloc ((iLen + 5) % U32) % U32
  [Effect.malloc ((iLen + 5) % U32)] ++ memcpy_trace pTramp iLen ++ wr8_trace (pTramp + iLen)
    ++ wr32_trace (pTramp + iLen + 1)

/-- The effects of `Attach( pAddress, pNewAddress )`, in program order; `none` when
`GetLen` does not return. -/
def Attach_trace (fuel : Nat) (malloc : Nat → Nat) (m : Mem) (pAddress : Nat) :
    Option (List Effect) :=
  match GetLen fuel m pAddress with
  | none => none
  | some iLen =>
    some (GetTramp_trace malloc iLen ++ [Effect.unprotect pAddress iLen] ++ wr8_trace pAddress
      ++ wr32_trace (pAddress + 1) ++ [Effect.reprotect pAddress iLen])

/-- The effects of `Detach( pAddress, pTramp )`, in program order; `none` when
`GetLen` does not return. -/
def Detach_trace (fuel : Nat) (m : Mem) (pAddress pTramp : Nat) : Option (List Effect) :=
  match GetLen fuel m pAddress with
  | none => none
  | some iLen =>
    some ([Effect.unprotect pAddress iLen] ++ memcpy_trace pAddress iLen
      ++ [Effect.reprotect pAddress iLen, Effect.free pTramp])

/-- The effects of `InlinePatch( pAddress, pNewAddress )`, in program order. -/
def InlinePatch_trace (pAddress : Nat) : List Effect :=
  [Effect.unprotect pAddress 5] ++ wr32_trace (pAddress + 1) ++ [Effect.reprotect pAddress 5]

/-- The effects of `Patch( pAddress, bByte )`, in program order. -/
def Patch_trace (pAddress : Nat) : List Effect :=
  [Effect.unprotect pAddress 1] ++ wr8_trace pAddress ++ [Effect.reprotect pAddress 1]

/-- What the specification allows outside the bracket of `UnProtect` and `ReProtect`:
no further protection call, and stores only into the block `heap`. -/
def outsideBracket (heap : Nat → Prop) : Effect → Prop
  | Effect.store x => heap x
  | Effect.unprotect _ _ => False
  | Effect.reprotect _ _ => False
  | _ => True

/-- The trace shape of the specification for a patch of `[a, a+n)`: exactly one
`UnProtect(a, n)`, then stores that all lie inside `[a, a+n)`, then exactly one
`ReProtect(a, n)`; before and after, only `outsideBracket` effects. -/
def bracketed (heap : Nat → Prop) (a n : Nat) (t : List Effect) : Prop :=
  ∃ pre ws post,
    t = pre ++ [Effect.unprotect a n] ++ ws ++ [Effect.reprotect a n] ++ post ∧
    (∀ e ∈ ws, ∃ i, i < n ∧ e = Effect.store ((a + i) % U32)) ∧
    (∀ e ∈ pre ++ post, outsideBracket heap e)

/-- Every byte that differs between the memories `m` and `m2` is the address of a
store of the trace `t`. -/
def changedOnlyAt (m m2 : Mem) (t : List Effect) : Prop :=
  ∀ x, m2 x ≠ m x → Effect.store x ∈ t

/-! ## Theorems -/

/-! ### Memory lemmas -/

theorem wr8_eq (m : Mem) (p v : Nat) : wr8 m p v (p % U32) = v % 256 := by
  simp [wr8]

theorem wr8_ne (m : Mem) (p v a : Nat) (h : a ≠ p % U32) : wr8 m p v a = m a := by
  simp [wr8, h]

theorem wr32_frame (m : Mem) (p v a : Nat) (h : ∀ i, i < 4 → a ≠ (p + i) % U32) :
    wr32 m p v a = m a := by
  have h0 := h 0 (by omega)
  have h1 := h 1 (by omega)
  have h2 := h 2 (by omega)
  have h3 := h 3 (by omega)
  simp only [Nat.add_zero] at h0
  unfold wr32
  rw [wr8_ne _ _ _ _ h3, wr8_ne _ _ _ _ h2, wr8_ne _ _ _ _ h1, wr8_ne _ _ _ _ h0]

theorem wr32_byte0 (m : Mem) (p v : Nat) : wr32 m p v (p % U32) = v % 256 := by
  unfold wr32
  rw [wr8_ne _ _ _ _ (by simp only [U32]; omega), wr8_ne _ _ _ _ (by simp only [U32]; omega),
    wr8_ne _ _ _ _ (by simp only [U32]; omega), wr8_eq]
  omega

theorem wr32_byte1 (m : Mem) (p v : Nat) : wr32 m p v ((p + 1) % U32) = v / 256 % 256 := by
  unfold wr32
  rw [wr8_ne _ _ _ _ (by simp only [U32]; omega), wr8_ne _ _ _ _ (by simp only [U32]; omega),
    wr8_eq]
  omega

theorem wr32_byte2 (m : Mem) (p v : Nat) : wr32 m p v ((p + 2) % U32) = v / 65536 % 256 := by
  unfold wr32
  rw [wr8_ne _ _ _ _ (by simp only [U32]; omega), wr8_eq]
  omega

theorem wr32_byte3 (m : Mem) (p v : Nat) :
    wr32 m p v ((p + 3) % U32) = v / 16777216 % 256 := by
  unfold wr32
  rw [wr8_eq]
  omega

theorem rd32_wr32 (m : Mem) (p v : Nat) : rd32 (wr32 m p v) p = v % U32 := by
  unfold rd32 rd8
  rw [wr32_byte0, wr32_byte1, wr32_byte2, wr32_byte3]
  simp only [U32]
  omega

theorem memcpy_dst (m : Mem) (dst src n i : Nat) (hi : i < n) (hn : n ≤ U32) :
    memcpy m dst src n ((dst + i) % U32) = m ((src + i) % U32) := by
  unfold memcpy
  simp only [U32] at hn ⊢
  have h1 : ((dst + i) % 4294967296 + 4294967296 - dst % 4294967296) % 4294967296 = i := by
    omega
  rw [h1, if_pos ⟨by omega, hi⟩]

theorem memcpy_frame (m : Mem) (dst src n a : Nat) (h : ∀ i, i < n → a ≠ (dst + i) % U32) :
    memcpy m dst src n a = m a := by
  unfold memcpy
  split_ifs with hc
  · exfalso
    apply h _ hc.2
    have := hc.1
    simp only [U32] at this ⊢
    omega
  · rfl

/-! ### Bounds on the result of `DisAssemble` -/

theorem rd8_lt (m : Mem) (p : Nat) : rd8 m p < 256 := by
  unfold rd8; omega

set_option maxRecDepth 100000 in
theorem table_0F_never_flags_C_PREFIX :
    ∀ b, b < 256 → table_0F.getD b 0 ≠ C_ERROR → table_0F.getD b 0 &&& C_PREFIX = 0 := by
  decide

theorem DisAssemble_modrm_fst (m : Mem) (p n f : Nat) :
    n + 1 ≤ (DisAssemble_modrm m p n f).1 ∧ (DisAssemble_modrm m p n f).1 ≤ n + 2 := by
  unfold DisAssemble_modrm
  simp only []
  split_ifs <;> simp

theorem DisAssemble_skip_bounds (n f : Nat) :
    n ≤ DisAssemble_skip n f ∧ DisAssemble_skip n f ≤ n + 14 := by
  unfold DisAssemble_skip
  split_ifs <;> omega

theorem DisAssemble_operands_bounds (m : Mem) (p n b f : Nat) (h : n + 16 < U32) :
    n ≤ DisAssemble_operands m p n b f ∧ DisAssemble_operands m p n b f ≤ n + 16 := by
  unfold DisAssemble_operands
  simp only []
  generalize DisAssemble_dataw0 b f = f1
  have hm := DisAssemble_modrm_fst m p n f1
  generalize hr : (if f1 &&& C_MODRM ≠ 0 then DisAssemble_modrm m p n f1 else (n, f1)) = r
  have hr1 : n ≤ r.1 ∧ r.1 ≤ n + 2 := by
    split at hr <;> subst hr
    · omega
    · simp
  have hs := DisAssemble_skip_bounds r.1 (DisAssemble_data66 (DisAssemble_mem67 r.2))
  simp only [U32] at h ⊢
  omega

theorem DisAssemble_opcode_n (m : Mem) (p n f : Nat) :
    n + 1 ≤ (DisAssemble_opcode m p n f).n ∧ (DisAssemble_opcode m p n f).n ≤ n + 2 := by
  unfold DisAssemble_opcode
  simp only []
  split_ifs <;> simp

theorem DisAssemble_opcode_n_of_flag (m : Mem) (p n f : Nat)
    (he : (DisAssemble_opcode m p n f).f ≠ C_ERROR)
    (hp : (DisAssemble_opcode m p n f).f &&& C_PREFIX ≠ 0) :
    (DisAssemble_opcode m p n f).n = n + 1 := by
  unfold DisAssemble_opcode at he hp ⊢
  simp only [] at he hp ⊢
  split_ifs at he hp ⊢ with h0
  · exact absurd (table_0F_never_flags_C_PREFIX _ (rd8_lt m _) he) hp
  · rfl

theorem DisAssemble_loop_bounds (m : Mem) (p : Nat) :
    ∀ fuel n f r, n + fuel + 17 < U32 → DisAssemble_loop fuel m p n f = some r →
      r ≠ C_ERROR → n + 1 ≤ r ∧ r ≤ n + fuel + 17 := by
  intro fuel
  induction fuel with
  | zero => intro n f r _ h; simp [DisAssemble_loop] at h
  | succ fuel ih =>
    intro n f r hb h hr
    rw [DisAssemble_loop] at h
    have hn := DisAssemble_opcode_n m p n f
    split_ifs at h with h1 h2
    · simp only [Option.some.injEq] at h; exact absurd h.symm hr
    · have hn1 := DisAssemble_opcode_n_of_flag m p n f h1 h2
      have := ih _ _ r (by omega) h hr
      omega
    · simp only [Option.some.injEq] at h
      have := DisAssemble_operands_bounds m p (DisAssemble_opcode m p n f).n
        (DisAssemble_opcode m p n f).b (DisAssemble_opcode m p n f).f (by omega)
      omega

theorem DisAssemble_bounds (m : Mem) (p r : Nat) (h : DisAssemble m p = some r)
    (hr : r ≠ C_ERROR) : 1 ≤ r ∧ r ≤ 4294967249 := by
  have := DisAssemble_loop_bounds m p PREFIX_FUEL 0 0 r (by decide) h hr
  simp only [PREFIX_FUEL] at this
  omega

/-! ### Decoding of particular instructions -/

theorem DisAssemble_of_opcode (m : Mem) (p : Nat) (s : Decode)
    (hs : DisAssemble_opcode m p 0 0 = s) (he : s.f ≠ C_ERROR) (hp : s.f &&& C_PREFIX = 0) :
    DisAssemble m p = some (DisAssemble_operands m p s.n s.b s.f) := by
  unfold DisAssemble PREFIX_FUEL
  rw [DisAssemble_loop]
  simp only [hs, if_neg he, hp, ne_eq, not_true_eq_false, if_false]

theorem DisAssemble_push_ebp (m : Mem) (p : Nat) (h0 : rd8 m p = 0x55) :
    DisAssemble m p = some 1 := by
  have t0 : table_1.getD 0x55 0 = 0 := by decide
  have hs : DisAssemble_opcode m p 0 0 = ⟨1, 0x55, 0⟩ := by
    unfold DisAssemble_opcode DisAssemble_test
    simp only [Nat.add_zero, h0, t0, C_FUCKINGTEST, C_TABLE_0F]
    simp +decide
  rw [DisAssemble_of_opcode m p _ hs (by decide) (by decide)]
  simp +decide [DisAssemble_operands, DisAssemble_dataw0,
    DisAssemble_mem67, DisAssemble_data66, DisAssemble_skip,
    C_66, C_67, C_DATA66, C_DATA1, C_DATA2, C_DATA4, C_MEM67, C_MEM1,
    C_MEM2, C_MEM4, C_MODRM, C_DATAW0]

theorem DisAssemble_mov_ebp_esp (m : Mem) (p : Nat) (h0 : rd8 m p = 0x8B)
    (h1 : rd8 m (p + 1) = 0xEC) : DisAssemble m p = some 2 := by
  have t0 : table_1.getD 0x8B 0 = 0x800 := by decide
  have hs : DisAssemble_opcode m p 0 0 = ⟨1, 0x8B, 0x800⟩ := by
    unfold DisAssemble_opcode DisAssemble_test
    simp only [Nat.add_zero, h0, t0, C_FUCKINGTEST, C_TABLE_0F]
    simp +decide
  rw [DisAssemble_of_opcode m p _ hs (by decide) (by decide)]
  simp +decide [DisAssemble_operands, DisAssemble_dataw0, DisAssemble_modrm,
    DisAssemble_mem67, DisAssemble_data66, DisAssemble_skip, h1,
    C_66, C_67, C_DATA66, C_DATA1, C_DATA2, C_DATA4, C_MEM67, C_MEM1,
    C_MEM2, C_MEM4, C_MODRM, C_DATAW0]

theorem DisAssemble_sub_esp_imm8 (m : Mem) (p : Nat) (h0 : rd8 m p = 0x83)
    (h1 : rd8 m (p + 1) = 0xEC) : DisAssemble m p = some 3 := by
  have t0 : table_1.getD 0x83 0 = 0x810 := by decide
  have hs : DisAssemble_opcode m p 0 0 = ⟨1, 0x83, 0x810⟩ := by
    unfold DisAssemble_opcode DisAssemble_test
    simp only [Nat.add_zero, h0, t0, C_FUCKINGTEST, C_TABLE_0F]
    simp +decide
  rw [DisAssemble_of_opcode m p _ hs (by decide) (by decide)]
  simp +decide [DisAssemble_operands, DisAssemble_dataw0, DisAssemble_modrm,
    DisAssemble_mem67, DisAssemble_data66, DisAssemble_skip, h1,
    C_66, C_67, C_DATA66, C_DATA1, C_DATA2, C_DATA4, C_MEM67, C_MEM1,
    C_MEM2, C_MEM4, C_MODRM, C_DATAW0]

theorem DisAssemble_jmp_rel32 (m : Mem) (p : Nat) (h0 : rd8 m p = 0xE9) :
    DisAssemble m p = some 5 := by
  have t0 : table_1.getD 0xE9 0 = 8 := by decide
  have hs : DisAssemble_opcode m p 0 0 = ⟨1, 0xE9, 8⟩ := by
    unfold DisAssemble_opcode DisAssemble_test
    simp only [Nat.add_zero, h0, t0, C_FUCKINGTEST, C_TABLE_0F]
    simp +decide
  rw [DisAssemble_of_opcode m p _ hs (by decide) (by decide)]
  simp +decide [DisAssemble_operands, DisAssemble_dataw0,
    DisAssemble_mem67, DisAssemble_data66, DisAssemble_skip,
    C_66, C_67, C_DATA66, C_DATA1, C_DATA2, C_DATA4, C_MEM67, C_MEM1,
    C_MEM2, C_MEM4, C_MODRM, C_DATAW0]

/-! ### The loop of `GetLen` -/

theorem sum_dropLast_cons_ne (n : Nat) (ls : List Nat) (h : ls ≠ []) :
    (n :: ls).dropLast.sum = n + ls.dropLast.sum := by
  cases ls with
  | nil => exact absurd rfl h
  | cons a t => simp [List.dropLast]

theorem GetLen_loop_done (fuel : Nat) (m : Mem) (p s : Nat) (h : 5 ≤ s) :
    GetLen_loop fuel m p s = some s := by
  cases fuel with
  | zero => simp [GetLen_loop]; omega
  | succ k => simp [GetLen_loop]; omega

theorem GetLen_loop_spec (m : Mem) :
    ∀ fs p s, 5 ≤ s + fs → s < 10 → GetLen_supported fs m p s = true →
      ∃ ls, insnLens m ls.length p = some ls ∧
        (∀ fuel, 5 ≤ s + fuel → GetLen_loop fuel m p s = some (s + ls.sum)) ∧
        5 ≤ s + ls.sum ∧ s + ls.sum ≤ 4294967253 ∧
        (s < 5 → ls ≠ [] ∧ s + ls.dropLast.sum < 5) := by
  intro fs
  induction fs with
  | zero =>
    intro p s h1 _ _
    exact ⟨[], rfl, fun fuel _ => by simpa using GetLen_loop_done fuel m p s (by omega),
      by simpa using h1, by simp; omega, fun h => by omega⟩
  | succ fs ih =>
    intro p s h1 h3 hs
    by_cases h5 : s < 5
    · rw [GetLen_supported, if_pos h5] at hs
      cases hd : DisAssemble m p with
      | none => rw [hd] at hs; simp at hs
      | some n =>
        rw [hd] at hs
        simp only [Bool.and_eq_true, bne_iff_ne, ne_eq] at hs
        obtain ⟨hne, hrest⟩ := hs
        have hb := DisAssemble_bounds m p n hd hne
        have hmod : (s + n) % U32 = s + n := by simp only [U32]; omega
        rw [hmod] at hrest
        have hstep : ∀ fuel, 5 ≤ s + fuel → GetLen_loop fuel m p s =
            GetLen_loop (fuel - 1) m ((p + n) % U32) (s + n) := by
          intro fuel hf
          cases fuel with
          | zero => omega
          | succ k => rw [GetLen_loop, if_pos h5, hd]; simp only [hmod]; rfl
        by_cases h6 : s + n < 5
        · obtain ⟨ls, hl1, hl2, hl3, hl4, hl5⟩ := ih ((p + n) % U32) (s + n)
            (by omega) (by omega) hrest
          obtain ⟨hl5a, hl5b⟩ := hl5 h6
          refine ⟨n :: ls, ?_, ?_, ?_, ?_, fun _ => ⟨by simp, ?_⟩⟩
          · simp only [List.length_cons, insnLens, hd, if_neg hne, hl1, Option.map_some']
          · intro fuel hf
            rw [hstep fuel hf, hl2 (fuel - 1) (by omega)]
            simp [Nat.add_assoc]
          · simp only [List.sum_cons]; omega
          · simp only [List.sum_cons]; omega
          · rw [sum_dropLast_cons_ne n ls hl5a]; omega
        · refine ⟨[n], ?_, ?_, ?_, ?_, fun _ => ⟨by simp, ?_⟩⟩
          · simp only [List.length_cons, List.length_nil, insnLens, hd, if_neg hne,
              Option.map_some']
          · intro fuel hf
            rw [hstep fuel hf, GetLen_loop_done _ _ _ _ (by omega)]
            simp
          · simp; omega
          · simp; omega
          · simp; omega
    · exact ⟨[], rfl, fun fuel _ => by simpa using GetLen_loop_done fuel m p s (by omega),
        by simp; omega, by simp; omega, fun h => absurd h h5⟩

/-- C3. When every instruction `GetLen` decodes at `target` is supported, `GetLen`
returns a Patch Length `L >= 5` that is the sum of the `DisAssemble` lengths of the
first `k >= 1` consecutive instructions at `target`, and the first `k - 1` of them
total fewer than 5 bytes. -/
theorem GetLen_patch_length (m : Mem) (target : Nat)
    (hsup : GetLen_supported 5 m target 0 = true) :
    ∃ L k ls, insnLens m k target = some ls ∧ 1 ≤ k ∧ ls.length = k ∧
      (∀ fuel, 5 ≤ fuel → GetLen fuel m target = some L) ∧
      5 ≤ L ∧ ls.sum = L ∧ ls.dropLast.sum < 5 := by
  obtain ⟨ls, h1, h2, h3, _, h5⟩ := GetLen_loop_spec m 5 target 0 (by omega) (by omega) hsup
  obtain ⟨h5a, h5b⟩ := h5 (by omega)
  refine ⟨ls.sum, ls.length, ls, h1, ?_, rfl, ?_, by omega, rfl, by omega⟩
  · cases ls with
    | nil => exact absurd rfl h5a
    | cons a t => simp
  · intro fuel hf
    have := h2 fuel (by omega)
    simpa [GetLen] using this

theorem GetLen_patch_length_witness :
    ∃ L k ls, insnLens prologueMem k 0x1000 = some ls ∧ 1 ≤ k ∧ ls.length = k ∧
      (∀ fuel, 5 ≤ fuel → GetLen fuel prologueMem 0x1000 = some L) ∧
      5 ≤ L ∧ ls.sum = L ∧ ls.dropLast.sum < 5 :=
  GetLen_patch_length prologueMem 0x1000 (by decide)

/-! ### Trampoline and hook jump -/

theorem GetLen_supported_bounds (fuel : Nat) (m : Mem) (t L : Nat) (hfuel : 5 ≤ fuel)
    (hsup : GetLen_supported 5 m t 0 = true) (hL : GetLen fuel m t = some L) :
    5 ≤ L ∧ L ≤ 4294967253 := by
  obtain ⟨ls, _, h2, h3, h4, _⟩ := GetLen_loop_spec m 5 t 0 (by omega) (by omega) hsup
  have := h2 fuel (by omega)
  unfold GetLen at hL
  rw [this] at hL
  simp only [Option.some.injEq] at hL
  omega

theorem GetTramp_ptr (malloc : Nat → Nat) (m : Mem) (a L : Nat) (hL : L + 5 < U32) :
    (GetTramp malloc m a L).2 = malloc (L + 5) % U32 := by
  unfold GetTramp
  simp only [Nat.mod_eq_of_lt hL]

theorem GetTramp_frame (malloc : Nat → Nat) (m : Mem) (a L x : Nat)
    (h : ∀ i, i < L + 5 → x ≠ ((GetTramp malloc m a L).2 + i) % U32) :
    (GetTramp malloc m a L).1 x = m x := by
  unfold GetTramp at h ⊢
  simp only [] at h ⊢
  rw [wr32_frame, wr8_ne, memcpy_frame]
  · intro i hi; exact h i (by omega)
  · exact h L (by omega)
  · intro i hi
    have := h (L + 1 + i) (by omega)
    simpa [Nat.add_assoc] using this

theorem GetTramp_copy (malloc : Nat → Nat) (m : Mem) (a L i : Nat) (hL : L + 5 ≤ U32)
    (hi : i < L) :
    (GetTramp malloc m a L).1 (((GetTramp malloc m a L).2 + i) % U32) = m ((a + i) % U32) := by
  unfold GetTramp
  simp only []
  rw [wr32_frame, wr8_ne, memcpy_dst _ _ _ _ _ hi (by omega)]
  · simp only [U32] at hL ⊢; omega
  · intro k hk; simp only [U32] at hL ⊢; omega

theorem GetTramp_jump (malloc : Nat → Nat) (m : Mem) (a L : Nat) :
    (GetTramp malloc m a L).1 (((GetTramp malloc m a L).2 + L) % U32) = 0xE9 ∧
    rd32 (GetTramp malloc m a L).1 ((GetTramp malloc m a L).2 + L + 1) =
      sub32 (a + L) ((GetTramp malloc m a L).2 + L + 5) := by
  unfold GetTramp
  simp only []
  constructor
  · rw [wr32_frame, wr8_eq]
    intro k hk; simp only [U32]; omega
  · rw [rd32_wr32]
    unfold sub32
    simp only [U32]; omega

theorem Attach_eq (fuel : Nat) (malloc : Nat → Nat) (m : Mem) (t r L : Nat)
    (hL : GetLen fuel m t = some L) :
    Attach fuel malloc m t r =
      some (wr32 (wr8 (GetTramp malloc m t L).1 t 0xE9) (t + 1) (sub32 r (t + 5)),
        (GetTramp malloc m t L).2) := by
  unfold Attach
  rw [hL]

theorem jump_frame (m : Mem) (t d x : Nat) (h : ∀ i, i < 5 → x ≠ (t + i) % U32) :
    wr32 (wr8 m t 0xE9) (t + 1) d x = m x := by
  rw [wr32_frame, wr8_ne]
  · exact h 0 (by omega)
  · intro i hi
    have := h (1 + i) (by omega)
    simpa [Nat.add_assoc] using this

theorem jump_opcode (m : Mem) (t d : Nat) :
    wr32 (wr8 m t 0xE9) (t + 1) d (t % U32) = 0xE9 := by
  rw [wr32_frame, wr8_eq]
  intro i hi; simp only [U32]; omega

theorem GetLen_jump (fuel : Nat) (m : Mem) (t : Nat) (hfuel : 1 ≤ fuel)
    (h : m (t % U32) = 0xE9) : GetLen fuel m t = some 5 := by
  have hd : DisAssemble m t = some 5 := DisAssemble_jmp_rel32 m t (by unfold rd8; rw [h])
  cases fuel with
  | zero => omega
  | succ k =>
    unfold GetLen
    rw [GetLen_loop, if_pos (by omega), hd]
    simp only [Nat.zero_add]
    exact GetLen_loop_done k m _ _ (by decide)

/-! ### `Attach`, `Detach` and `GetTramp` -/

/-- C1. Round trip: when every instruction `GetLen` decodes at `target` is supported
and the trampoline block does not overlap the `L` bytes of code at `target`,
`Attach` followed by `Detach` with the returned trampoline leaves every byte outside
the trampoline block equal to its value before `Attach`. -/
theorem Attach_Detach_round_trip (fuel : Nat) (malloc : Nat → Nat) (m : Mem)
    (target replacement L : Nat) (hfuel : 5 ≤ fuel)
    (hsup : GetLen_supported 5 m target 0 = true) (hL : GetLen fuel m target = some L)
    (hdisj : ∀ i, i < L + 5 → ∀ j, j < L →
      (malloc (L + 5) + i) % U32 ≠ (target + j) % U32) :
    ∃ m1 tramp m2, Attach fuel malloc m target replacement = some (m1, tramp) ∧
      tramp = malloc (L + 5) % U32 ∧
      Detach fuel m1 target tramp = some (m2, target) ∧
      ∀ a, (∀ i, i < L + 5 → a ≠ (tramp + i) % U32) → m2 a = m a := by
  obtain ⟨hL5, hLmax⟩ := GetLen_supported_bounds fuel m target L hfuel hsup hL
  have hptr := GetTramp_ptr malloc m target L (by simp only [U32]; omega)
  have hdisj2 : ∀ i j, i < L + 5 → j < L →
      ((GetTramp malloc m target L).2 + i) % U32 ≠ (target + j) % U32 := by
    intro i j hi hj
    have := hdisj i hi j hj
    rw [hptr]; simp only [U32] at this ⊢; omega
  refine ⟨_, _, memcpy (wr32 (wr8 (GetTramp malloc m target L).1 target 0xE9) (target + 1)
    (sub32 replacement (target + 5))) target (GetTramp malloc m target L).2 5,
    Attach_eq fuel malloc m target replacement L hL, hptr, ?_, ?_⟩
  · unfold Detach
    rw [GetLen_jump fuel _ target (by omega) (jump_opcode _ _ _)]
  · intro a ha
    by_cases hin : ∃ i, i < 5 ∧ a = (target + i) % U32
    · obtain ⟨i, hi, rfl⟩ := hin
      rw [memcpy_dst _ _ _ _ _ hi (by decide), jump_frame, GetTramp_copy _ _ _ _ _
        (by simp only [U32]; omega) (by omega)]
      intro j hj
      exact hdisj2 i j (by omega) (by omega)
    · have hout : ∀ i, i < 5 → a ≠ (target + i) % U32 := fun i hi h => hin ⟨i, hi, h⟩
      rw [memcpy_frame _ _ _ _ _ hout, jump_frame _ _ _ _ hout, GetTramp_frame]
      exact ha

theorem Attach_Detach_round_trip_witness :
    ∃ m1 tramp m2, Attach 5 mallocAt prologueMem 0x1000 0x5000 = some (m1, tramp) ∧
      tramp = mallocAt (6 + 5) % U32 ∧
      Detach 5 m1 0x1000 tramp = some (m2, 0x1000) ∧
      ∀ a, (∀ i, i < 6 + 5 → a ≠ (tramp + i) % U32) → m2 a = prologueMem a :=
  Attach_Detach_round_trip 5 mallocAt prologueMem 0x1000 0x5000 6 (by decide) (by decide)
    (by decide) (by decide)

/-- C5. After `Attach(target, replacement)` with decoding at `target` succeeding,
memory outside the trampoline block differs from the memory before only on
`[target, target+5)`, which holds `E9` and the little-endian encoding of
`(replacement - (target + 5)) mod 2^32`; so `InlineFetch(target) = replacement`, and
the other `L - 5` bytes of the patched region keep their values. -/
theorem Attach_writes_jump (fuel : Nat) (malloc : Nat → Nat) (m : Mem)
    (target replacement L : Nat) (ht : target < U32) (hr : replacement < U32)
    (hfuel : 5 ≤ fuel) (hsup : GetLen_supported 5 m target 0 = true)
    (hL : GetLen fuel m target = some L) :
    ∃ m1, Attach fuel malloc m target replacement = some (m1, malloc (L + 5) % U32) ∧
      (∀ a, (∀ i, i < 5 → a ≠ (target + i) % U32) →
        (∀ i, i < L + 5 → a ≠ (malloc (L + 5) + i) % U32) → m1 a = m a) ∧
      m1 target = 0xE9 ∧
      m1 ((target + 1) % U32) = sub32 replacement (target + 5) % 256 ∧
      m1 ((target + 2) % U32) = sub32 replacement (target + 5) / 256 % 256 ∧
      m1 ((target + 3) % U32) = sub32 replacement (target + 5) / 65536 % 256 ∧
      m1 ((target + 4) % U32) = sub32 replacement (target + 5) / 16777216 % 256 ∧
      InlineFetch m1 target = replacement ∧
      (∀ j, 5 ≤ j → j < L →
        (∀ i, i < L + 5 → (target + j) % U32 ≠ (malloc (L + 5) + i) % U32) →
        m1 ((target + j) % U32) = m ((target + j) % U32)) := by
  obtain ⟨hL5, hLmax⟩ := GetLen_supported_bounds fuel m target L hfuel hsup hL
  have hptr := GetTramp_ptr malloc m target L (by simp only [U32]; omega)
  have hfr : ∀ a, (∀ i, i < 5 → a ≠ (target + i) % U32) →
      (∀ i, i < L + 5 → a ≠ (malloc (L + 5) + i) % U32) →
      wr32 (wr8 (GetTramp malloc m target L).1 target 0xE9) (target + 1)
        (sub32 replacement (target + 5)) a = m a := by
    intro a h1 h2
    rw [jump_frame _ _ _ _ h1, GetTramp_frame]
    intro i hi
    have := h2 i hi
    rw [hptr]; simp only [U32] at this ⊢; omega
  refine ⟨_, ?_, hfr, ?_, ?_, ?_, ?_, ?_, ?_, ?_⟩
  · rw [Attach_eq fuel malloc m target replacement L hL, hptr]
  · have := jump_opcode (GetTramp malloc m target L).1 target (sub32 replacement (target + 5))
    rwa [Nat.mod_eq_of_lt ht] at this
  · exact wr32_byte0 _ _ _
  · rw [show target + 2 = target + 1 + 1 from rfl, wr32_byte1]
  · rw [show target + 3 = target + 1 + 2 from rfl, wr32_byte2]
  · rw [show target + 4 = target + 1 + 3 from rfl, wr32_byte3]
  · unfold InlineFetch
    rw [rd32_wr32]
    unfold sub32
    simp only [U32] at ht hr ⊢
    omega
  · intro j hj1 hj2 hj3
    apply hfr _ _ hj3
    intro i hi
    simp only [U32] at ht ⊢
    omega

theorem Attach_writes_jump_witness :
    ∃ m1, Attach 5 mallocAt prologueMem 0x1000 0xF0000000 = some (m1, mallocAt (6 + 5) % U32) ∧
      (∀ a, (∀ i, i < 5 → a ≠ (0x1000 + i) % U32) →
        (∀ i, i < 6 + 5 → a ≠ (mallocAt (6 + 5) + i) % U32) → m1 a = prologueMem a) ∧
      m1 0x1000 = 0xE9 ∧
      m1 ((0x1000 + 1) % U32) = sub32 0xF0000000 (0x1000 + 5) % 256 ∧
      m1 ((0x1000 + 2) % U32) = sub32 0xF0000000 (0x1000 + 5) / 256 % 256 ∧
      m1 ((0x1000 + 3) % U32) = sub32 0xF0000000 (0x1000 + 5) / 65536 % 256 ∧
      m1 ((0x1000 + 4) % U32) = sub32 0xF0000000 (0x1000 + 5) / 16777216 % 256 ∧
      InlineFetch m1 0x1000 = 0xF0000000 ∧
      (∀ j, 5 ≤ j → j < 6 →
        (∀ i, i < 6 + 5 → (0x1000 + j) % U32 ≠ (mallocAt (6 + 5) + i) % U32) →
        m1 ((0x1000 + j) % U32) = prologueMem ((0x1000 + j) % U32)) :=
  Attach_writes_jump 5 mallocAt prologueMem 0x1000 0xF0000000 6 (by decide) (by decide)
    (by decide) (by decide) (by decide)

/-- C4. For `L + 5` representable in `size_t`, the trampoline `GetTramp(a, L)` builds
is the block `malloc(L + 5)` returned; its bytes `0..L-1` are the bytes at
`a..a+L-1`, byte `L` is `E9`, bytes `L+1..L+4` are the little-endian encoding of
`((a + L) - (trampoline + L + 5)) mod 2^32`, and `InlineFetch(trampoline + L)` is
`a + L`. `Attach` returns this trampoline, built from the bytes before the jump is
written, and changes nothing else outside `[a, a+5)`. -/
theorem GetTramp_layout (malloc : Nat → Nat) (m : Mem) (a L : Nat) (hL : L + 5 < U32) :
    (GetTramp malloc m a L).2 = malloc (L + 5) % U32 ∧
    (∀ i, i < L →
      (GetTramp malloc m a L).1 (((GetTramp malloc m a L).2 + i) % U32) = m ((a + i) % U32)) ∧
    (GetTramp malloc m a L).1 (((GetTramp malloc m a L).2 + L) % U32) = 0xE9 ∧
    (∀ i, i < 4 →
      (GetTramp malloc m a L).1 (((GetTramp malloc m a L).2 + L + 1 + i) % U32) =
        sub32 (a + L) ((GetTramp malloc m a L).2 + L + 5) / 256 ^ i % 256) ∧
    InlineFetch (GetTramp malloc m a L).1 ((GetTramp malloc m a L).2 + L) = (a + L) % U32 ∧
    (∀ fuel r, GetLen fuel m a = some L →
      ∃ m1, Attach fuel malloc m a r = some (m1, (GetTramp malloc m a L).2) ∧
        ∀ x, (∀ i, i < 5 → x ≠ (a + i) % U32) → m1 x = (GetTramp malloc m a L).1 x) := by
  refine ⟨GetTramp_ptr malloc m a L hL, fun i hi => GetTramp_copy malloc m a L i (by omega) hi,
    (GetTramp_jump malloc m a L).1, ?_, ?_, ?_⟩
  · intro i hi
    unfold GetTramp
    simp only []
    have h4 : i = 0 ∨ i = 1 ∨ i = 2 ∨ i = 3 := by omega
    rcases h4 with rfl | rfl | rfl | rfl
    · simp only [Nat.add_zero, pow_zero, Nat.div_one]; rw [wr32_byte0]
    · rw [wr32_byte1]; norm_num
    · rw [wr32_byte2]; norm_num
    · rw [wr32_byte3]; norm_num
  · unfold InlineFetch
    rw [(GetTramp_jump malloc m a L).2]
    unfold sub32
    simp only [U32]
    omega
  · intro fuel r hG
    exact ⟨_, Attach_eq fuel malloc m a r L hG, fun x hx => jump_frame _ _ _ _ hx⟩

theorem GetTramp_layout_witness :
    (GetTramp mallocAt prologueMem 0x1000 6).2 = mallocAt (6 + 5) % U32 ∧
    (∀ i, i < 6 →
      (GetTramp mallocAt prologueMem 0x1000 6).1
        (((GetTramp mallocAt prologueMem 0x1000 6).2 + i) % U32) =
          prologueMem ((0x1000 + i) % U32)) ∧
    (GetTramp mallocAt prologueMem 0x1000 6).1
      (((GetTramp mallocAt prologueMem 0x1000 6).2 + 6) % U32) = 0xE9 ∧
    (∀ i, i < 4 →
      (GetTramp mallocAt prologueMem 0x1000 6).1
        (((GetTramp mallocAt prologueMem 0x1000 6).2 + 6 + 1 + i) % U32) =
        sub32 (0x1000 + 6) ((GetTramp mallocAt prologueMem 0x1000 6).2 + 6 + 5) / 256 ^ i % 256) ∧
    InlineFetch (GetTramp mallocAt prologueMem 0x1000 6).1
      ((GetTramp mallocAt prologueMem 0x1000 6).2 + 6) = (0x1000 + 6) % U32 ∧
    (∀ fuel r, GetLen fuel prologueMem 0x1000 = some 6 →
      ∃ m1, Attach fuel mallocAt prologueMem 0x1000 r =
          some (m1, (GetTramp mallocAt prologueMem 0x1000 6).2) ∧
        ∀ x, (∀ i, i < 5 → x ≠ (0x1000 + i) % U32) →
          m1 x = (GetTramp mallocAt prologueMem 0x1000 6).1 x) :=
  GetTramp_layout mallocAt prologueMem 0x1000 6 (by decide)

/-- C2. When memory holds `55 8B EC 83 EC 10` at `target`, `DisAssemble` returns 1, 2
and 3 for the three instructions, `GetLen(target)` returns 6, and the trampoline
`GetTramp(target, 6)` is the block `malloc(11)` returned, holding the six bytes, then
`E9`, then a little-endian displacement `d` with
`(trampoline + 11 + d) mod 2^32 = (target + 6) mod 2^32`. -/
theorem prologue_patch_length_and_trampoline (malloc : Nat → Nat) (m : Mem) (target : Nat)
    (h0 : m (target % U32) = 0x55) (h1 : m ((target + 1) % U32) = 0x8B)
    (h2 : m ((target + 2) % U32) = 0xEC) (h3 : m ((target + 3) % U32) = 0x83)
    (h4 : m ((target + 4) % U32) = 0xEC) (h5 : m ((target + 5) % U32) = 0x10) :
    DisAssemble m target = some 1 ∧ DisAssemble m (target + 1) = some 2 ∧
    DisAssemble m (target + 3) = some 3 ∧
    (∀ fuel, 3 ≤ fuel → GetLen fuel m target = some 6) ∧
    (GetTramp malloc m target 6).2 = malloc 11 % U32 ∧
    (GetTramp malloc m target 6).1 (((GetTramp malloc m target 6).2 + 0) % U32) = 0x55 ∧
    (GetTramp malloc m target 6).1 (((GetTramp malloc m target 6).2 + 1) % U32) = 0x8B ∧
    (GetTramp malloc m target 6).1 (((GetTramp malloc m target 6).2 + 2) % U32) = 0xEC ∧
    (GetTramp malloc m target 6).1 (((GetTramp malloc m target 6).2 + 3) % U32) = 0x83 ∧
    (GetTramp malloc m target 6).1 (((GetTramp malloc m target 6).2 + 4) % U32) = 0xEC ∧
    (GetTramp malloc m target 6).1 (((GetTramp malloc m target 6).2 + 5) % U32) = 0x10 ∧
    (GetTramp malloc m target 6).1 (((GetTramp malloc m target 6).2 + 6) % U32) = 0xE9 ∧
    ((GetTramp malloc m target 6).2 + 11 +
      rd32 (GetTramp malloc m target 6).1 ((GetTramp malloc m target 6).2 + 7)) % U32 =
        (target + 6) % U32 := by
  have a1 : ((target + 1) % U32 + 1) % U32 = (target + 2) % U32 := by simp only [U32]; omega
  have a3 : ((target + 3) % U32 + 1) % U32 = (target + 4) % U32 := by simp only [U32]; omega
  have a13 : ((target + 1) % U32 + 2) % U32 = (target + 3) % U32 := by simp only [U32]; omega
  have d0 : DisAssemble m target = some 1 :=
    DisAssemble_push_ebp m target (by unfold rd8; rw [h0])
  have d1 : DisAssemble m (target + 1) = some 2 :=
    DisAssemble_mov_ebp_esp m (target + 1) (by unfold rd8; rw [h1])
      (by unfold rd8; rw [show target + 1 + 1 = target + 2 from rfl, h2])
  have d3 : DisAssemble m (target + 3) = some 3 :=
    DisAssemble_sub_esp_imm8 m (target + 3) (by unfold rd8; rw [h3])
      (by unfold rd8; rw [show target + 3 + 1 = target + 4 from rfl, h4])
  have d1m : DisAssemble m ((target + 1) % U32) = some 2 :=
    DisAssemble_mov_ebp_esp m _ (by unfold rd8; rw [Nat.mod_mod, h1])
      (by unfold rd8; rw [a1, h2])
  have d3m : DisAssemble m (((target + 1) % U32 + 2) % U32) = some 3 :=
    DisAssemble_sub_esp_imm8 m _ (by unfold rd8; rw [Nat.mod_mod, a13, h3])
      (by
        unfold rd8
        rw [show ((((target + 1) % U32 + 2) % U32 + 1) % U32) = (target + 4) % U32 from by
          simp only [U32]; omega, h4])
  have hc := fun i hi => GetTramp_copy malloc m target 6 i (by decide) hi
  refine ⟨d0, d1, d3, ?_, GetTramp_ptr malloc m target 6 (by decide), ?_, ?_, ?_, ?_, ?_, ?_,
    (GetTramp_jump malloc m target 6).1, ?_⟩
  · intro fuel hf
    obtain ⟨k, rfl⟩ : ∃ k, fuel = k + 3 := ⟨fuel - 3, by omega⟩
    unfold GetLen
    rw [GetLen_loop, if_pos (by decide), d0]
    simp only [Nat.zero_add]
    rw [GetLen_loop, if_pos (by decide), d1m]
    simp only []
    rw [GetLen_loop, if_pos (by decide), d3m]
    simp only []
    exact GetLen_loop_done k m _ _ (by decide)
  · rw [hc 0 (by decide)]; simpa using h0
  · rw [hc 1 (by decide), h1]
  · rw [hc 2 (by decide), h2]
  · rw [hc 3 (by decide), h3]
  · rw [hc 4 (by decide), h4]
  · rw [hc 5 (by decide), h5]
  · rw [show (GetTramp malloc m target 6).2 + 7 = (GetTramp malloc m target 6).2 + 6 + 1
      from rfl, (GetTramp_jump malloc m target 6).2]
    unfold sub32
    simp only [U32]
    omega

theorem prologue_patch_length_and_trampoline_witness :
    DisAssemble prologueMem 0x1000 = some 1 ∧ DisAssemble prologueMem (0x1000 + 1) = some 2 ∧
    DisAssemble prologueMem (0x1000 + 3) = some 3 ∧
    (∀ fuel, 3 ≤ fuel → GetLen fuel prologueMem 0x1000 = some 6) ∧
    (GetTramp mallocAt prologueMem 0x1000 6).2 = mallocAt 11 % U32 ∧
    (GetTramp mallocAt prologueMem 0x1000 6).1
      (((GetTramp mallocAt prologueMem 0x1000 6).2 + 0) % U32) = 0x55 ∧
    (GetTramp mallocAt prologueMem 0x1000 6).1
      (((GetTramp mallocAt prologueMem 0x1000 6).2 + 1) % U32) = 0x8B ∧
    (GetTramp mallocAt prologueMem 0x1000 6).1
      (((GetTramp mallocAt prologueMem 0x1000 6).2 + 2) % U32) = 0xEC ∧
    (GetTramp mallocAt prologueMem 0x1000 6).1
      (((GetTramp mallocAt prologueMem 0x1000 6).2 + 3) % U32) = 0x83 ∧
    (GetTramp mallocAt prologueMem 0x1000 6).1
      (((GetTramp mallocAt prologueMem 0x1000 6).2 + 4) % U32) = 0xEC ∧
    (GetTramp mallocAt prologueMem 0x1000 6).1
      (((GetTramp mallocAt prologueMem 0x1000 6).2 + 5) % U32) = 0x10 ∧
    (GetTramp mallocAt prologueMem 0x1000 6).1
      (((GetTramp mallocAt prologueMem 0x1000 6).2 + 6) % U32) = 0xE9 ∧
    ((GetTramp mallocAt prologueMem 0x1000 6).2 + 11 +
      rd32 (GetTramp mallocAt prologueMem 0x1000 6).1
        ((GetTramp mallocAt prologueMem 0x1000 6).2 + 7)) % U32 = (0x1000 + 6) % U32 :=
  prologue_patch_length_and_trampoline mallocAt prologueMem 0x1000 (by decide) (by decide)
    (by decide) (by decide) (by decide) (by decide)

/-! ### Decode failures in `GetLen` and `Attach` -/

/-- C6 (the code departs from the claim). With `6A 05 0F 10` at the target
`DisAssemble` decodes `push 5` (length 2) and then stores the sentinel `C_ERROR` for
`0F 10`; `GetLen` adds the sentinel, which steps the pointer and the running total
back by one, decodes `05 0F 10 90 90` from the middle of the first instruction
(length 5) and returns 6. `Attach` then builds the `malloc(11)` trampoline, returns
it and overwrites the byte at the target with `E9` instead of failing. -/
theorem Attach_patches_after_decode_failure :
    DisAssemble pushImmThenBadMem 0x1000 = some 2 ∧
    DisAssemble pushImmThenBadMem 0x1002 = some C_ERROR ∧
    GetLen_supported 5 pushImmThenBadMem 0x1000 0 = false ∧
    DisAssemble pushImmThenBadMem 0x1001 = some 5 ∧
    GetLen 5 pushImmThenBadMem 0x1000 = some 6 ∧
    pushImmThenBadMem 0x1000 = 0x6A ∧
    ∃ m1, Attach 5 mallocAt pushImmThenBadMem 0x1000 0x5000 = some (m1, mallocAt 11 % U32) ∧
      m1 0x1000 = 0xE9 ∧ m1 0x1000 ≠ pushImmThenBadMem 0x1000 := by
  have hL : GetLen 5 pushImmThenBadMem 0x1000 = some 6 := by decide
  have hA := Attach_eq 5 mallocAt pushImmThenBadMem 0x1000 0x5000 6 hL
  have hp := GetTramp_ptr mallocAt pushImmThenBadMem 0x1000 6 (by decide)
  have hj := jump_opcode (GetTramp mallocAt pushImmThenBadMem 0x1000 6).1 0x1000
    (sub32 0x5000 (0x1000 + 5))
  refine ⟨by decide, by decide, by decide, by decide, hL, by decide, _, ?_, hj, ?_⟩
  · rw [hA, hp]
  · intro h
    have h6A : pushImmThenBadMem 0x1000 = 0x6A := by decide
    rw [h6A] at h
    exact absurd (hj.symm.trans h) (by decide)

/-- C7 (the code departs from the claim). With `55 0F 04` at the target the loop of
`GetLen` never finishes: adding the sentinel `C_ERROR` to the pointer and to the
running total steps both back by one, so the loop alternates for ever between
`(target, 0)` and `(target + 1, 1)`. -/
theorem GetLen_diverges_after_short_instruction :
    ∀ fuel, GetLen fuel pushThenBadMem 0x1000 = none := by
  have d0 : DisAssemble pushThenBadMem 0x1000 = some 1 := by decide
  have d1 : DisAssemble pushThenBadMem 0x1001 = some C_ERROR := by decide
  have step : ∀ fuel, GetLen_loop (fuel + 2) pushThenBadMem 0x1000 0 =
      GetLen_loop fuel pushThenBadMem 0x1000 0 := by
    intro fuel
    rw [GetLen_loop, if_pos (by decide), d0]
    simp only []
    rw [show (0x1000 + 1) % U32 = 0x1001 from by decide, show (0 + 1) % U32 = 1 from by decide,
      GetLen_loop, if_pos (by decide), d1]
    simp only []
    rw [show (0x1001 + C_ERROR) % U32 = 0x1000 from by decide,
      show (1 + C_ERROR) % U32 = 0 from by decide]
  have both : ∀ fuel, GetLen_loop fuel pushThenBadMem 0x1000 0 = none ∧
      GetLen_loop (fuel + 1) pushThenBadMem 0x1000 0 = none := by
    intro fuel
    induction fuel with
    | zero => exact ⟨by decide, by decide⟩
    | succ k ih => exact ⟨ih.2, by rw [step]; exact ih.1⟩
  intro fuel
  exact (both fuel).1

/-! ### `InlinePatch` and `Patch` -/

/-- C10. `Patch(a, v)` stores the byte `v` at `a` and leaves every other byte of
memory as it was. -/
theorem Patch_writes_one_byte (m : Mem) (a v : Nat) (hv : v < 256) :
    Patch m a v (a % U32) = v ∧ ∀ x, x ≠ a % U32 → Patch m a v x = m x := by
  unfold Patch
  refine ⟨?_, fun x hx => wr8_ne m a v x hx⟩
  rw [wr8_eq]
  omega

theorem Patch_writes_one_byte_witness :
    Patch prologueMem 0x1002 0x90 (0x1002 % U32) = 0x90 ∧
      ∀ x, x ≠ 0x1002 % U32 → Patch prologueMem 0x1002 0x90 x = prologueMem x :=
  Patch_writes_one_byte prologueMem 0x1002 0x90 (by decide)

/-- C9. `InlinePatch(a, newTarget)` overwrites only the displacement: the opcode
byte at `a` and every byte outside `[a+1, a+5)` keep their values. -/
theorem InlinePatch_frame (m : Mem) (a newTarget : Nat) :
    (InlinePatch m a newTarget).1 (a % U32) = m (a % U32) ∧
      ∀ x, (∀ i, i < 4 → x ≠ (a + 1 + i) % U32) → (InlinePatch m a newTarget).1 x = m x := by
  unfold InlinePatch
  refine ⟨wr32_frame _ _ _ _ ?_, fun x hx => wr32_frame _ _ _ _ hx⟩
  intro i hi
  simp only [U32]
  omega

/-- C8. When the five bytes at `a` are an opcode followed by a little-endian `rel32`
that resolves to `target`, `InlinePatch(a, newTarget)` returns `target`, and
afterwards `InlineFetch(a)` is `newTarget`. -/
theorem InlinePatch_returns_old_installs_new (m : Mem) (a target newTarget : Nat)
    (hnew : newTarget < U32) (hold : (a + 5 + rd32 m (a + 1)) % U32 = target) :
    (InlinePatch m a newTarget).2 = target ∧
      InlineFetch (InlinePatch m a newTarget).1 a = newTarget := by
  unfold InlinePatch InlineFetch
  simp only []
  rw [rd32_wr32]
  unfold sub32
  simp only [U32] at hnew hold ⊢
  constructor <;> omega

theorem InlinePatch_returns_old_installs_new_witness :
    (InlinePatch callMem 0x2000 0x4000).2 = 0x3000 ∧
      InlineFetch (InlinePatch callMem 0x2000 0x4000).1 0x2000 = 0x4000 :=
  InlinePatch_returns_old_installs_new callMem 0x2000 0x3000 0x4000 (by decide) (by decide)

/-! ### `Detach` after `Attach`, and double `Attach` -/

theorem Attach_some (fuel : Nat) (malloc : Nat → Nat) (m : Mem) (t r : Nat) (m1 : Mem)
    (tramp : Nat) (h : Attach fuel malloc m t r = some (m1, tramp)) :
    1 ≤ fuel ∧ ∃ L, GetLen fuel m t = some L ∧
      m1 = wr32 (wr8 (GetTramp malloc m t L).1 t 0xE9) (t + 1) (sub32 r (t + 5)) ∧
      tramp = (GetTramp malloc m t L).2 := by
  constructor
  · cases fuel with
    | zero => simp [Attach, GetLen, GetLen_loop] at h
    | succ k => omega
  · cases hL : GetLen fuel m t with
    | none => simp [Attach, hL] at h
    | some L =>
      rw [Attach_eq fuel malloc m t r L hL] at h
      simp only [Option.some.injEq, Prod.mk.injEq] at h
      exact ⟨L, rfl, h.1.symm, h.2.symm⟩

/-- C13 (as amended). After a successful `Attach`, `Detach(target, trampoline)`
re-derives its length with `GetLen` from the patched bytes at `target`; these decode
as the 5-byte jump, so the length is 5 and `Detach` copies exactly the first 5 bytes
of the trampoline back over `target`, leaving every other byte as it was. -/
theorem Detach_copies_jump_length (fuel : Nat) (malloc : Nat → Nat) (m : Mem)
    (target replacement : Nat) (m1 : Mem) (tramp : Nat)
    (hA : Attach fuel malloc m target replacement = some (m1, tramp)) :
    GetLen fuel m1 target = some 5 ∧
    ∃ m2, Detach fuel m1 target tramp = some (m2, target) ∧
      (∀ i, i < 5 → m2 ((target + i) % U32) = m1 ((tramp + i) % U32)) ∧
      (∀ a, (∀ i, i < 5 → a ≠ (target + i) % U32) → m2 a = m1 a) := by
  obtain ⟨hf, L, _, hm1, _⟩ := Attach_some fuel malloc m target replacement m1 tramp hA
  have hG : GetLen fuel m1 target = some 5 := by
    rw [hm1]; exact GetLen_jump fuel _ target hf (jump_opcode _ _ _)
  refine ⟨hG, memcpy m1 target tramp 5, ?_, ?_, ?_⟩
  · unfold Detach; rw [hG]
  · intro i hi; exact memcpy_dst m1 target tramp 5 i hi (by decide)
  · intro a ha; exact memcpy_frame m1 target tramp 5 a ha

theorem Detach_copies_jump_length_witness :
    GetLen 5 (wr32 (wr8 (GetTramp mallocAt prologueMem 0x1000 6).1 0x1000 0xE9) (0x1000 + 1)
      (sub32 0x5000 (0x1000 + 5))) 0x1000 = some 5 ∧
    ∃ m2, Detach 5 (wr32 (wr8 (GetTramp mallocAt prologueMem 0x1000 6).1 0x1000 0xE9)
        (0x1000 + 1) (sub32 0x5000 (0x1000 + 5))) 0x1000
        (GetTramp mallocAt prologueMem 0x1000 6).2 = some (m2, 0x1000) ∧
      (∀ i, i < 5 → m2 ((0x1000 + i) % U32) =
        (wr32 (wr8 (GetTramp mallocAt prologueMem 0x1000 6).1 0x1000 0xE9) (0x1000 + 1)
          (sub32 0x5000 (0x1000 + 5))) (((GetTramp mallocAt prologueMem 0x1000 6).2 + i) % U32)) ∧
      (∀ a, (∀ i, i < 5 → a ≠ (0x1000 + i) % U32) → m2 a =
        (wr32 (wr8 (GetTramp mallocAt prologueMem 0x1000 6).1 0x1000 0xE9) (0x1000 + 1)
          (sub32 0x5000 (0x1000 + 5))) a) :=
  Detach_copies_jump_length 5 mallocAt prologueMem 0x1000 0x5000 _ _
    (Attach_eq 5 mallocAt prologueMem 0x1000 0x5000 6 (by decide))

/-- C13 (as stated, refuted). On the prologue `55 8B EC 83 EC 10` `Attach` uses the
Patch Length 6, but the length `Detach` then computes at the patched target is 5. -/
theorem Detach_length_differs_from_Attach :
    GetLen 5 prologueMem 0x1000 = some 6 ∧
    ∃ m1 tramp, Attach 5 mallocAt prologueMem 0x1000 0x5000 = some (m1, tramp) ∧
      GetLen 5 m1 0x1000 = some 5 ∧
      GetLen 5 m1 0x1000 ≠ GetLen 5 prologueMem 0x1000 ∧
      Detach 5 m1 0x1000 tramp = some (memcpy m1 0x1000 tramp 5, 0x1000) := by
  have h6 : GetLen 5 prologueMem 0x1000 = some 6 := by decide
  have hA := Attach_eq 5 mallocAt prologueMem 0x1000 0x5000 6 h6
  have h5 := GetLen_jump 5 (wr32 (wr8 (GetTramp mallocAt prologueMem 0x1000 6).1 0x1000 0xE9)
    (0x1000 + 1) (sub32 0x5000 (0x1000 + 5))) 0x1000 (by decide) (jump_opcode _ _ _)
  refine ⟨h6, _, _, hA, h5, ?_, ?_⟩
  · rw [h5, h6]; decide
  · unfold Detach; rw [h5]

theorem jump_bytes (m : Mem) (t d : Nat) :
    ∀ i, i < 5 → wr32 (wr8 m t 0xE9) (t + 1) d ((t + i) % U32) =
      (if i = 0 then 0xE9 else d / 256 ^ (i - 1) % 256) := by
  intro i hi
  have h5 : i = 0 ∨ i = 1 ∨ i = 2 ∨ i = 3 ∨ i = 4 := by omega
  rcases h5 with rfl | rfl | rfl | rfl | rfl
  · simpa using jump_opcode m t d
  · simpa using wr32_byte0 (wr8 m t 0xE9) (t + 1) d
  · simpa [Nat.add_assoc] using wr32_byte1 (wr8 m t 0xE9) (t + 1) d
  · simpa [Nat.add_assoc] using wr32_byte2 (wr8 m t 0xE9) (t + 1) d
  · simpa [Nat.add_assoc] using wr32_byte3 (wr8 m t 0xE9) (t + 1) d

/-- C19. Double `Attach` is not idempotent: after a successful `Attach(target, r1)`,
a second `Attach(target, r2)` computes the Patch Length 5 and returns a trampoline
whose first 5 bytes are the jump the first `Attach` wrote (`E9` and the little-endian
encoding of `(r1 - (target + 5)) mod 2^32`); `Detach` with that trampoline puts this
jump back at `target`, so `target` still jumps to `r1`. -/
theorem double_Attach_keeps_first_jump (fuel : Nat) (malloc malloc2 : Nat → Nat) (m : Mem)
    (target r1 r2 : Nat) (m1 : Mem) (tramp1 : Nat) (hr1 : r1 < U32)
    (hA : Attach fuel malloc m target r1 = some (m1, tramp1))
    (hdisj : ∀ i, i < 10 → ∀ j, j < 5 → (malloc2 10 + i) % U32 ≠ (target + j) % U32) :
    GetLen fuel m1 target = some 5 ∧
    ∃ m2 m3, Attach fuel malloc2 m1 target r2 = some (m2, malloc2 10 % U32) ∧
      (∀ i, i < 5 → m2 ((malloc2 10 + i) % U32) =
        (if i = 0 then 0xE9 else sub32 r1 (target + 5) / 256 ^ (i - 1) % 256)) ∧
      Detach fuel m2 target (malloc2 10 % U32) = some (m3, target) ∧
      (∀ i, i < 5 → m3 ((target + i) % U32) =
        (if i = 0 then 0xE9 else sub32 r1 (target + 5) / 256 ^ (i - 1) % 256)) ∧
      InlineFetch m3 target = r1 := by
  obtain ⟨hf, L, _, hm1, _⟩ := Attach_some fuel malloc m target r1 m1 tramp1 hA
  have hG : GetLen fuel m1 target = some 5 := by
    rw [hm1]; exact GetLen_jump fuel _ target hf (jump_opcode _ _ _)
  have hptr : (GetTramp malloc2 m1 target 5).2 = malloc2 10 % U32 :=
    GetTramp_ptr malloc2 m1 target 5 (by decide)
  have hb1 := jump_bytes (GetTramp malloc m target L).1 target (sub32 r1 (target + 5))
  rw [← hm1] at hb1
  -- the second trampoline holds the first jump
  have ht2 : ∀ i, i < 5 →
      wr32 (wr8 (GetTramp malloc2 m1 target 5).1 target 0xE9) (target + 1)
        (sub32 r2 (target + 5)) ((malloc2 10 + i) % U32) =
      (if i = 0 then 0xE9 else sub32 r1 (target + 5) / 256 ^ (i - 1) % 256) := by
    intro i hi
    rw [jump_frame _ _ _ _ (fun j hj => hdisj i (by omega) j hj)]
    have := GetTramp_copy malloc2 m1 target 5 i (by decide) hi
    rw [hptr, Nat.mod_add_mod] at this
    rw [this, hb1 i hi]
  have hG2 : GetLen fuel (wr32 (wr8 (GetTramp malloc2 m1 target 5).1 target 0xE9) (target + 1)
      (sub32 r2 (target + 5))) target = some 5 :=
    GetLen_jump fuel _ target hf (jump_opcode _ _ _)
  have hm3 : ∀ i, i < 5 →
      memcpy (wr32 (wr8 (GetTramp malloc2 m1 target 5).1 target 0xE9) (target + 1)
        (sub32 r2 (target + 5))) target (malloc2 10 % U32) 5 ((target + i) % U32) =
      (if i = 0 then 0xE9 else sub32 r1 (target + 5) / 256 ^ (i - 1) % 256) := by
    intro i hi
    rw [memcpy_dst _ _ _ _ _ hi (by decide), Nat.mod_add_mod, ht2 i hi]
  refine ⟨hG, _, _, ?_, ht2, ?_, hm3, ?_⟩
  · rw [Attach_eq fuel malloc2 m1 target r2 5 hG, hptr]
  · unfold Detach; rw [hG2]
  · unfold InlineFetch rd32 rd8
    have e1 := hm3 1 (by decide)
    have e2 := hm3 2 (by decide)
    have e3 := hm3 3 (by decide)
    have e4 := hm3 4 (by decide)
    simp only [Nat.add_assoc, Nat.reduceAdd] at e1 e2 e3 e4 ⊢
    rw [e1, e2, e3, e4]
    unfold sub32
    simp only [U32] at hr1 ⊢
    norm_num
    omega

theorem double_Attach_keeps_first_jump_witness :
    ∃ m1 tramp1, Attach 5 mallocAt prologueMem 0x1000 0x5000 = some (m1, tramp1) ∧
      (GetLen 5 m1 0x1000 = some 5 ∧
      ∃ m2 m3, Attach 5 mallocAt2 m1 0x1000 0x6000 = some (m2, mallocAt2 10 % U32) ∧
        (∀ i, i < 5 → m2 ((mallocAt2 10 + i) % U32) =
          (if i = 0 then 0xE9 else sub32 0x5000 (0x1000 + 5) / 256 ^ (i - 1) % 256)) ∧
        Detach 5 m2 0x1000 (mallocAt2 10 % U32) = some (m3, 0x1000) ∧
        (∀ i, i < 5 → m3 ((0x1000 + i) % U32) =
          (if i = 0 then 0xE9 else sub32 0x5000 (0x1000 + 5) / 256 ^ (i - 1) % 256)) ∧
        InlineFetch m3 0x1000 = 0x5000) :=
  ⟨_, _, Attach_eq 5 mallocAt prologueMem 0x1000 0x5000 6 (by decide),
    double_Attach_keeps_first_jump 5 mallocAt mallocAt2 prologueMem 0x1000 0x5000 0x6000 _ _
      (by decide) (Attach_eq 5 mallocAt prologueMem 0x1000 0x5000 6 (by decide)) (by decide)⟩

/-! ### Opcodes whose table flags give a wrong length -/

/-- C16 (the code departs from the claim). `F7 /0` and `0F 80` lose the operand-size
flag: `F7 C0 imm32` decodes to 6 and `0F 80 rel32` to 6, but with a `66` prefix both
decode to 7 (a 4-byte immediate after the prefix), not to 5. -/
theorem operand_size_flag_lost_for_F7_and_0F :
    DisAssemble testImm32Mem 0x1000 = some 6 ∧ DisAssemble testImm16Mem 0x1000 = some 7 ∧
    DisAssemble jccRel32Mem 0x1000 = some 6 ∧ DisAssemble jccRel16Mem 0x1000 = some 7 := by
  decide

/-- C18 (the code departs from the claim). `C6 45 FC 00` decodes to 7, `CD 21` to 6
and `D4 0A` to 1, where the instructions are 4, 2 and 2 bytes long. -/
theorem imm8_opcodes_with_wrong_table_flags :
    DisAssemble movByteImm8Mem 0x1000 = some 7 ∧ DisAssemble intMem 0x1000 = some 6 ∧
    DisAssemble aamMem 0x1000 = some 1 ∧
    table_1.getD 0xC6 0 = C_MODRM + C_DATA66 ∧ table_1.getD 0xCD 0 = C_DATA1 + C_DATA4 ∧
    table_1.getD 0xD4 0 = 0 ∧ table_1.getD 0xD5 0 = 0 := by
  decide

/-! ### `UnProtect` -/

theorem mask_eq (k x : Nat) (hk : k ≤ 32) (hx : x < 2 ^ 32) :
    x &&& (0xFFFFFFFF ^^^ (2 ^ k - 1)) = x / 2 ^ k * 2 ^ k := by
  apply Nat.eq_of_testBit_eq
  intro i
  have hF : (0xFFFFFFFF : Nat) = 2 ^ 32 - 1 := by norm_num
  rw [Nat.testBit_and, Nat.testBit_xor, hF, Nat.testBit_two_pow_sub_one,
    Nat.testBit_two_pow_sub_one, ← Nat.shiftRight_eq_div_pow, ← Nat.shiftLeft_eq,
    Nat.testBit_shiftLeft, Nat.testBit_shiftRight]
  by_cases h1 : i < k
  · have : ¬ (i ≥ k) := by omega
    have h32 : i < 32 := by omega
    simp [h1, this, h32]
  · have h2 : i ≥ k := by omega
    have e : k + (i - k) = i := by omega
    by_cases h32 : i < 32
    · simp [h1, h2, h32, e]
    · have : x.testBit i = false := by
        apply Nat.testBit_lt_two_pow
        calc x < 2 ^ 32 := hx
          _ ≤ 2 ^ i := Nat.pow_le_pow_right (by decide) (by omega)
      simp [h1, h2, h32, e, this]


theorem UnProtect_eq (k a n : Nat) (hk : k ≤ 32) :
    UnProtect (2 ^ k) a n =
      if pageOf (2 ^ k) (a % U32) = pageOf (2 ^ k) ((a + n) % U32) then
        [pageOf (2 ^ k) (a % U32)]
      else [pageOf (2 ^ k) (a % U32), pageOf (2 ^ k) ((a + n) % U32)] := by
  unfold UnProtect pageOf
  simp only []
  rw [mask_eq k (a % U32) hk (Nat.mod_lt _ (by decide)),
    mask_eq k ((a + n) % U32) hk (Nat.mod_lt _ (by decide))]

theorem page_index_cases (ps M A n i : Nat) (hps : 0 < ps) (hM : M * ps = U32) (hA : A < U32)
    (hn : n ≤ ps) (hi : i < n) :
    (A + i) % U32 / ps = A / ps ∨ (A + i) % U32 / ps = (A + n) % U32 / ps := by
  simp only [U32] at hM hA ⊢
  have hM1 : 1 ≤ M := by
    rcases Nat.eq_zero_or_pos M with h0 | h0
    · rw [h0] at hM; simp at hM
    · exact h0
  have hpsle : ps ≤ 4294967296 := by
    rw [← hM]; exact Nat.le_mul_of_pos_left ps hM1
  by_cases hw : A + n < 4294967296
  · have e1 : (A + i) % 4294967296 = A + i := by omega
    have e2 : (A + n) % 4294967296 = A + n := by omega
    rw [e1, e2]
    have h1 : A / ps ≤ (A + i) / ps := Nat.div_le_div_right (by omega)
    have h2 : (A + i) / ps ≤ (A + n) / ps := Nat.div_le_div_right (by omega)
    have h3 : (A + n) / ps ≤ (A + ps) / ps := Nat.div_le_div_right (by omega)
    have h4 : (A + ps) / ps = A / ps + 1 := Nat.add_div_right A hps
    omega
  · have e2 : (A + n) % 4294967296 = A + n - 4294967296 := by omega
    have z2 : (A + n - 4294967296) / ps = 0 := Nat.div_eq_of_lt (by omega)
    by_cases hwi : A + i < 4294967296
    · left
      have e1 : (A + i) % 4294967296 = A + i := by omega
      rw [e1]
      have h1 : A / ps ≤ (A + i) / ps := Nat.div_le_div_right (by omega)
      have h2 : (A + i) / ps < M := by
        rw [Nat.div_lt_iff_lt_mul hps, hM]; exact hwi
      have h3 : M - 1 ≤ A / ps := by
        rw [Nat.le_div_iff_mul_le hps, Nat.sub_mul, hM]; omega
      omega
    · right
      have e1 : (A + i) % 4294967296 = A + i - 4294967296 := by omega
      rw [e1, e2, z2]
      exact Nat.div_eq_of_lt (by omega)

theorem page_of_mem (ps P y : Nat) (hd : ps ∣ P) (h1 : P ≤ y) (h2 : y < P + ps) :
    P = pageOf ps y := by
  obtain ⟨c, rfl⟩ := hd
  unfold pageOf
  have : y / ps = c := by
    apply Nat.div_eq_of_lt_le
    · rw [Nat.mul_comm]; exact h1
    · rw [Nat.succ_mul, Nat.mul_comm]; exact h2
  rw [this, Nat.mul_comm]

/-- C20. Without `WIN32`, for a page size `2^k` and a region of `1 <= n <= 2^k`
bytes at `a`, every page holding a byte of `[a, a+n)` is among the pages
`UnProtect(a, n)` passes to `mprotect`; in particular the page of the first byte and
the page of the last byte both are. -/
theorem UnProtect_covers_region (k a n : Nat) (hk : k ≤ 32) (hn1 : 1 ≤ n) (hn : n ≤ 2 ^ k) :
    (∀ P, 2 ^ k ∣ P →
      (∃ i, i < n ∧ P ≤ (a + i) % U32 ∧ (a + i) % U32 < P + 2 ^ k) →
      P ∈ UnProtect (2 ^ k) a n) ∧
    pageOf (2 ^ k) (a % U32) ∈ UnProtect (2 ^ k) a n ∧
    pageOf (2 ^ k) ((a + (n - 1)) % U32) ∈ UnProtect (2 ^ k) a n := by
  have hps : 0 < 2 ^ k := Nat.two_pow_pos k
  have hM : 2 ^ (32 - k) * 2 ^ k = U32 := by
    rw [← Nat.pow_add, Nat.sub_add_cancel hk]
  have key : ∀ i, i < n → pageOf (2 ^ k) ((a + i) % U32) ∈ UnProtect (2 ^ k) a n := by
    intro i hi
    rw [UnProtect_eq k a n hk]
    have hc := page_index_cases (2 ^ k) (2 ^ (32 - k)) (a % U32) n i hps hM
      (Nat.mod_lt _ (by decide)) hn hi
    rw [Nat.mod_add_mod, Nat.mod_add_mod] at hc
    unfold pageOf
    rcases hc with h | h
    · rw [h]; split_ifs <;> simp
    · rw [h]; split_ifs with he
      · rw [← he]; simp [pageOf]
      · simp [pageOf]
  refine ⟨?_, ?_, key (n - 1) (by omega)⟩
  · rintro P hd ⟨i, hi, h1, h2⟩
    rw [page_of_mem (2 ^ k) P _ hd h1 h2]
    exact key i hi
  · have := key 0 (by omega)
    simpa using this

theorem UnProtect_covers_region_witness :
    (∀ P, 2 ^ 12 ∣ P →
      (∃ i, i < 5 ∧ P ≤ (0x1FFE + i) % U32 ∧ (0x1FFE + i) % U32 < P + 2 ^ 12) →
      P ∈ UnProtect (2 ^ 12) 0x1FFE 5) ∧
    pageOf (2 ^ 12) (0x1FFE % U32) ∈ UnProtect (2 ^ 12) 0x1FFE 5 ∧
    pageOf (2 ^ 12) ((0x1FFE + (5 - 1)) % U32) ∈ UnProtect (2 ^ 12) 0x1FFE 5 :=
  UnProtect_covers_region 12 0x1FFE 5 (by decide) (by decide) (by decide)

/-! ### The shape of a decoded instruction -/

set_option maxRecDepth 100000 in
theorem table_1_escape_flags :
    ∀ b, b < 256 → ∀ f ∈ [0, 2, 4, 6],
      ((f ||| table_1.getD b 0) &&& C_FUCKINGTEST ≠ 0 ↔ (b = 0xF6 ∨ b = 0xF7)) ∧
      ((f ||| table_1.getD b 0) &&& C_TABLE_0F ≠ 0 ↔ b = 0x0F) := by
  decide

theorem DisAssemble_opcode_cases (m : Mem) (a n f : Nat) (hf : f ∈ [0, 2, 4, 6]) :
    DisAssemble_opcode m a n f =
      if rd8 m (a + n) = 0x0F then
        ⟨n + 2, rd8 m (a + (n + 1)), table_0F.getD (rd8 m (a + (n + 1))) 0⟩
      else if rd8 m (a + n) = 0xF6 ∨ rd8 m (a + n) = 0xF7 then
        ⟨n + 1, rd8 m (a + n),
          if rd8 m (a + (n + 1)) &&& 0x38 = 0x00 then C_MODRM + C_DATAW0 else C_MODRM⟩
      else ⟨n + 1, rd8 m (a + n), f ||| table_1.getD (rd8 m (a + n)) 0⟩ := by
  obtain ⟨h1, h2⟩ := table_1_escape_flags (rd8 m (a + n)) (rd8_lt m _) f hf
  unfold DisAssemble_opcode DisAssemble_test
  simp only []
  by_cases hF : rd8 m (a + n) = 0x0F
  · have hT : ¬ (rd8 m (a + n) = 0xF6 ∨ rd8 m (a + n) = 0xF7) := by rw [hF]; decide
    rw [if_neg (fun h => hT (h1.mp h)), if_pos (h2.mpr hF), if_pos hF]
  · by_cases hT : rd8 m (a + n) = 0xF6 ∨ rd8 m (a + n) = 0xF7
    · rw [if_pos (h1.mpr hT), if_neg hF, if_pos hT]
      split_ifs with h38 hc hc
      · exact absurd (by decide) hc
      · rfl
      · exact absurd (by decide) hc
      · rfl
    · rw [if_neg (fun h => hT (h1.mp h)), if_neg (fun h => hF (h2.mp h)), if_neg hF, if_neg hT]


set_option maxRecDepth 100000 in
theorem table_1_prefix_flags :
    ∀ b, b < 256 → ∀ f ∈ [0, 2, 4, 6], isPrefixByte b = true →
      b ≠ 0x0F ∧ ¬ (b = 0xF6 ∨ b = 0xF7) ∧ f ||| table_1.getD b 0 ≠ C_ERROR ∧
      (f ||| table_1.getD b 0) &&& C_PREFIX ≠ 0 ∧
      (f ||| table_1.getD b 0) &&& (0xFFFFFFFF ^^^ C_PREFIX) ∈ [0, 2, 4, 6] := by
  decide

set_option maxRecDepth 100000 in
theorem table_1_opcode_flags :
    ∀ b, b < 256 → ∀ f ∈ [0, 2, 4, 6], isPrefixByte b = false →
      f ||| table_1.getD b 0 ≠ C_ERROR ∧ (f ||| table_1.getD b 0) &&& C_PREFIX = 0 := by
  decide

theorem DisAssemble_loop_prefix_step (fuel : Nat) (m : Mem) (a n f : Nat)
    (hf : f ∈ [0, 2, 4, 6]) (hp : isPrefixByte (rd8 m (a + n)) = true) :
    DisAssemble_loop (fuel + 1) m a n f =
      DisAssemble_loop fuel m a (n + 1)
        ((f ||| table_1.getD (rd8 m (a + n)) 0) &&& (0xFFFFFFFF ^^^ C_PREFIX)) := by
  obtain ⟨h1, h2, h3, h4, _⟩ := table_1_prefix_flags (rd8 m (a + n)) (rd8_lt m _) f hf hp
  rw [DisAssemble_loop, DisAssemble_opcode_cases m a n f hf, if_neg h1, if_neg h2]
  simp only []
  rw [if_neg h3, if_pos h4]

theorem DisAssemble_loop_prefix_run (m : Mem) (a : Nat) :
    ∀ k fuel n f, f ∈ [0, 2, 4, 6] →
      (∀ i, i < k → isPrefixByte (rd8 m (a + (n + i))) = true) →
      DisAssemble_loop (fuel + k) m a n f =
        DisAssemble_loop fuel m a (n + k) (prefixFlags m a k n f) ∧
      prefixFlags m a k n f ∈ [0, 2, 4, 6] := by
  intro k
  induction k with
  | zero => intro fuel n f hf _; exact ⟨rfl, hf⟩
  | succ k ih =>
    intro fuel n f hf hrun
    have hp : isPrefixByte (rd8 m (a + n)) = true := by simpa using hrun 0 (by omega)
    have hf2 := (table_1_prefix_flags (rd8 m (a + n)) (rd8_lt m _) f hf hp).2.2.2.2
    have ih2 := ih fuel (n + 1) _ hf2 (fun i hi => by
      have := hrun (i + 1) (by omega)
      rwa [show n + (i + 1) = n + 1 + i from by omega] at this)
    rw [show fuel + (k + 1) = fuel + k + 1 from rfl, DisAssemble_loop_prefix_step _ m a n f hf hp,
      ih2.1, show n + 1 + k = n + (k + 1) from by omega]
    exact ⟨rfl, ih2.2⟩

theorem DisAssemble_opcode_no_prefix_flag (m : Mem) (a n f : Nat) (hf : f ∈ [0, 2, 4, 6])
    (hp : isPrefixByte (rd8 m (a + n)) = false)
    (he : (DisAssemble_opcode m a n f).f ≠ C_ERROR) :
    (DisAssemble_opcode m a n f).f &&& C_PREFIX = 0 := by
  obtain ⟨_, h2⟩ := table_1_opcode_flags (rd8 m (a + n)) (rd8_lt m _) f hf hp
  rw [DisAssemble_opcode_cases m a n f hf] at he ⊢
  split_ifs at he ⊢ with h1 h3 h4
  · exact table_0F_never_flags_C_PREFIX _ (rd8_lt m _) he
  · exact (by decide : (C_MODRM + C_DATAW0) &&& C_PREFIX = 0)
  · exact (by decide : C_MODRM &&& C_PREFIX = 0)
  · exact h2

theorem DisAssemble_opcode_error_iff (m : Mem) (a n f : Nat) (hf : f ∈ [0, 2, 4, 6])
    (hp : isPrefixByte (rd8 m (a + n)) = false) :
    (DisAssemble_opcode m a n f).f = C_ERROR ↔
      rd8 m (a + n) = 0x0F ∧ table_0F.getD (rd8 m (a + (n + 1))) 0 = C_ERROR := by
  obtain ⟨h1, _⟩ := table_1_opcode_flags (rd8 m (a + n)) (rd8_lt m _) f hf hp
  rw [DisAssemble_opcode_cases m a n f hf]
  split_ifs with h0 h3 h4
  · exact ⟨fun h => ⟨h0, h⟩, fun h => h.2⟩
  · exact ⟨fun h => absurd h (by decide : ¬ C_MODRM + C_DATAW0 = C_ERROR),
      fun h => absurd h.1 h0⟩
  · exact ⟨fun h => absurd h (by decide : ¬ C_MODRM = C_ERROR), fun h => absurd h.1 h0⟩
  · exact ⟨fun h => absurd h h1, fun h => absurd h.1 h0⟩

theorem DisAssemble_loop_last_pass (fuel : Nat) (m : Mem) (a n f : Nat)
    (hf : f ∈ [0, 2, 4, 6]) (hp : isPrefixByte (rd8 m (a + n)) = false) :
    DisAssemble_loop (fuel + 1) m a n f =
      if (DisAssemble_opcode m a n f).f = C_ERROR then some C_ERROR
      else some (DisAssemble_operands m a (DisAssemble_opcode m a n f).n
        (DisAssemble_opcode m a n f).b (DisAssemble_opcode m a n f).f) := by
  rw [DisAssemble_loop]
  split_ifs with h1 h2
  · rfl
  · exact absurd (DisAssemble_opcode_no_prefix_flag m a n f hf hp h1) h2
  · rfl

/-- The decoding of an instruction with `k` prefix bytes: `DisAssemble` is the last
pass of its loop at offset `k`, with the flags the prefixes left. -/
theorem DisAssemble_after_prefixes (m : Mem) (a k : Nat) (hk : k < PREFIX_FUEL)
    (hrun : ∀ i, i < k → isPrefixByte (rd8 m (a + i)) = true)
    (hop : isPrefixByte (rd8 m (a + k)) = false) :
    prefixFlags m a k 0 0 ∈ [0, 2, 4, 6] ∧
    DisAssemble m a =
      if (DisAssemble_opcode m a k (prefixFlags m a k 0 0)).f = C_ERROR then some C_ERROR
      else some (DisAssemble_operands m a (DisAssemble_opcode m a k (prefixFlags m a k 0 0)).n
        (DisAssemble_opcode m a k (prefixFlags m a k 0 0)).b
        (DisAssemble_opcode m a k (prefixFlags m a k 0 0)).f) := by
  have hr := DisAssemble_loop_prefix_run m a k (PREFIX_FUEL - k - 1 + 1) 0 0 (by decide)
    (fun i hi => by simpa using hrun i hi)
  refine ⟨hr.2, ?_⟩
  unfold DisAssemble
  rw [show PREFIX_FUEL = PREFIX_FUEL - k - 1 + 1 + k from by omega, hr.1, Nat.zero_add,
    DisAssemble_loop_last_pass _ m a k _ hr.2 hop]

/-- C11. For an instruction whose run of leading prefix bytes ends (after `k` bytes),
`DisAssemble` returns, and it reports the failure sentinel exactly when the byte after
the prefixes is the escape `0F` and the byte following it has the entry `C_ERROR` in
`table_0F`; an instruction whose first non-prefix byte is not `0F` decodes to a
length. -/
theorem DisAssemble_fails_iff_illegal_0F (m : Mem) (a k : Nat) (hk : k < PREFIX_FUEL)
    (hrun : ∀ i, i < k → isPrefixByte (rd8 m (a + i)) = true)
    (hop : isPrefixByte (rd8 m (a + k)) = false) :
    (∃ r, DisAssemble m a = some r) ∧
    (DisAssemble m a = some C_ERROR ↔
      rd8 m (a + k) = 0x0F ∧ table_0F.getD (rd8 m (a + (k + 1))) 0 = C_ERROR) ∧
    (rd8 m (a + k) ≠ 0x0F → ∃ n, DisAssemble m a = some n ∧ n ≠ C_ERROR) := by
  obtain ⟨hf, hD⟩ := DisAssemble_after_prefixes m a k hk hrun hop
  have hiff := DisAssemble_opcode_error_iff m a k _ hf hop
  have hn := DisAssemble_opcode_n m a k (prefixFlags m a k 0 0)
  have hb := DisAssemble_operands_bounds m a (DisAssemble_opcode m a k (prefixFlags m a k 0 0)).n
    (DisAssemble_opcode m a k (prefixFlags m a k 0 0)).b
    (DisAssemble_opcode m a k (prefixFlags m a k 0 0)).f
    (by simp only [PREFIX_FUEL, U32] at hk ⊢; omega)
  have hne : DisAssemble_operands m a (DisAssemble_opcode m a k (prefixFlags m a k 0 0)).n
      (DisAssemble_opcode m a k (prefixFlags m a k 0 0)).b
      (DisAssemble_opcode m a k (prefixFlags m a k 0 0)).f ≠ C_ERROR := by
    simp only [PREFIX_FUEL, C_ERROR] at hk ⊢; omega
  refine ⟨?_, ?_, ?_⟩
  · rw [hD]; split_ifs <;> exact ⟨_, rfl⟩
  · rw [hD, ← hiff]
    split_ifs with h
    · simp [h]
    · simp [h, hne]
  · intro h0F
    have : ¬ (DisAssemble_opcode m a k (prefixFlags m a k 0 0)).f = C_ERROR :=
      fun h => h0F (hiff.mp h).1
    rw [hD, if_neg this]
    exact ⟨_, rfl, hne⟩

theorem DisAssemble_fails_iff_illegal_0F_witness :
    (∃ r, DisAssemble jccRel16Mem 0x1000 = some r) ∧
    (DisAssemble jccRel16Mem 0x1000 = some C_ERROR ↔
      rd8 jccRel16Mem (0x1000 + 1) = 0x0F ∧
        table_0F.getD (rd8 jccRel16Mem (0x1000 + (1 + 1))) 0 = C_ERROR) ∧
    (rd8 jccRel16Mem (0x1000 + 1) ≠ 0x0F →
      ∃ n, DisAssemble jccRel16Mem 0x1000 = some n ∧ n ≠ C_ERROR) :=
  DisAssemble_fails_iff_illegal_0F jccRel16Mem 0x1000 1 (by decide) (by decide) (by decide)

/-! ### ModRM, displacement and immediate bytes -/

set_option maxRecDepth 100000 in
theorem modrm_fields :
    ∀ b, b < 256 → b &&& 0xC0 = b / 64 * 64 ∧ b &&& 0x07 = b % 8 := by
  decide

theorem DisAssemble_modrm_32 (m : Mem) (a n f : Nat) (h67 : f &&& C_67 = 0) :
    DisAssemble_modrm m a n f =
      (n + 1 + specSibBytes (rd8 m (a + n)),
        f ||| dispFlag32 (rd8 m (a + n)) (rd8 m (a + (n + 1)))) := by
  obtain ⟨h1, h2⟩ := modrm_fields (rd8 m (a + n)) (rd8_lt m _)
  obtain ⟨_, h3⟩ := modrm_fields (rd8 m (a + (n + 1))) (rd8_lt m _)
  have hlt := rd8_lt m (a + n)
  unfold DisAssemble_modrm specSibBytes dispFlag32
  simp only [h1, h2, h3, h67, ne_eq, not_true_eq_false, if_false]
  generalize rd8 m (a + n) = x at hlt ⊢
  generalize rd8 m (a + (n + 1)) = y
  have hmod : x / 64 = 0 ∨ x / 64 = 1 ∨ x / 64 = 2 ∨ x / 64 = 3 := by omega
  rcases hmod with h | h | h | h <;> simp only [h] <;> by_cases h4 : x % 8 = 4 <;>
    by_cases h5 : x % 8 = 5 <;> by_cases h6 : y % 8 = 5 <;> simp [h4, h5, h6]

theorem DisAssemble_modrm_16 (m : Mem) (a n f : Nat) (h67 : f &&& C_67 ≠ 0) :
    DisAssemble_modrm m a n f = (n + 1, f ||| dispFlag16 (rd8 m (a + n))) := by
  obtain ⟨h1, h2⟩ := modrm_fields (rd8 m (a + n)) (rd8_lt m _)
  have hlt := rd8_lt m (a + n)
  unfold DisAssemble_modrm dispFlag16
  simp only [h1, h2, h67, ne_eq, not_false_eq_true, if_true]
  generalize rd8 m (a + n) = x at hlt ⊢
  have hmod : x / 64 = 0 ∨ x / 64 = 1 ∨ x / 64 = 2 ∨ x / 64 = 3 := by omega
  rcases hmod with h | h | h | h <;> simp only [h] <;> by_cases h6 : x % 8 = 6 <;>
    simp [h6]


theorem DisAssemble_skip_zero (n f : Nat) : DisAssemble_skip n f = n + DisAssemble_skip 0 f := by
  unfold DisAssemble_skip
  omega

theorem DisAssemble_operands_modrm (m : Mem) (a n b f n2 e : Nat)
    (hm : DisAssemble_dataw0 b f &&& C_MODRM ≠ 0)
    (hr : DisAssemble_modrm m a n (DisAssemble_dataw0 b f) = (n2, DisAssemble_dataw0 b f ||| e)) :
    DisAssemble_operands m a n b f =
      (n2 + DisAssemble_skip 0
        (DisAssemble_data66 (DisAssemble_mem67 (DisAssemble_dataw0 b f ||| e)))) % U32 := by
  unfold DisAssemble_operands
  simp only []
  rw [if_pos hm, hr, DisAssemble_skip_zero]

theorem DisAssemble_operands_plain (m : Mem) (a n b f : Nat)
    (hm : DisAssemble_dataw0 b f &&& C_MODRM = 0) :
    DisAssemble_operands m a n b f =
      (n + DisAssemble_skip 0
        (DisAssemble_data66 (DisAssemble_mem67 (DisAssemble_dataw0 b f)))) % U32 := by
  unfold DisAssemble_operands
  simp only []
  rw [if_neg (by simpa using hm), DisAssemble_skip_zero]

theorem DisAssemble_modrm_shape (m : Mem) (a n f : Nat) :
    ∃ s e, s ≤ 1 ∧ e ∈ [0, C_MEM1, C_MEM2, C_MEM4] ∧
      DisAssemble_modrm m a n f = (n + 1 + s, f ||| e) := by
  by_cases h67 : f &&& C_67 = 0
  · refine ⟨specSibBytes (rd8 m (a + n)), dispFlag32 (rd8 m (a + n)) (rd8 m (a + (n + 1))),
      ?_, ?_, DisAssemble_modrm_32 m a n f h67⟩
    · unfold specSibBytes; split_ifs <;> omega
    · unfold dispFlag32; split_ifs <;> simp
  · refine ⟨0, dispFlag16 (rd8 m (a + n)), by omega, ?_, DisAssemble_modrm_16 m a n f h67⟩
    unfold dispFlag16; split_ifs <;> simp

set_option maxRecDepth 100000 in
theorem tailAtMost_0F :
    ∀ b, b < 256 → table_0F.getD b 0 ≠ C_ERROR → tailAtMost 9 b (table_0F.getD b 0) := by
  decide

theorem tailAtMost_test :
    ∀ b ∈ [0xF6, 0xF7], tailAtMost 10 b (C_MODRM + C_DATAW0) ∧ tailAtMost 10 b C_MODRM := by
  decide

set_option maxRecDepth 100000 in
theorem tailAtMost_table_1 :
    ∀ b, b < 256 → ∀ f ∈ [0, 2, 4, 6], tailAtMost 10 b (f ||| table_1.getD b 0) := by
  decide

theorem DisAssemble_operands_le (m : Mem) (a n b f bound : Nat) (h : tailAtMost bound b f) :
    DisAssemble_operands m a n b f ≤ n + bound := by
  by_cases hm : DisAssemble_dataw0 b f &&& C_MODRM = 0
  · rw [DisAssemble_operands_plain m a n b f hm]
    have := h.2 hm
    exact le_trans (Nat.mod_le _ _) (by omega)
  · obtain ⟨s, e, hs, he, hr⟩ := DisAssemble_modrm_shape m a n (DisAssemble_dataw0 b f)
    rw [DisAssemble_operands_modrm m a n b f _ e hm hr]
    have := h.1 hm e he
    exact le_trans (Nat.mod_le _ _) (by omega)

/-- C12. For an instruction with `k` prefix bytes `DisAssemble` returns; when the
result is not the sentinel it is a length `n` with `1 <= n`, more precisely
`k + 1 <= n <= k + 11`, so it is neither zero nor `0xFFFFFFFF`. -/
theorem DisAssemble_length_bounds (m : Mem) (a k : Nat) (hk : k < PREFIX_FUEL)
    (hrun : ∀ i, i < k → isPrefixByte (rd8 m (a + i)) = true)
    (hop : isPrefixByte (rd8 m (a + k)) = false) :
    ∃ n, DisAssemble m a = some n ∧
      (n ≠ C_ERROR → 1 ≤ n ∧ k + 1 ≤ n ∧ n ≤ k + 11 ∧ n ≠ 0 ∧ n ≠ 0xFFFFFFFF) := by
  obtain ⟨hf, hD⟩ := DisAssemble_after_prefixes m a k hk hrun hop
  rw [hD]
  split_ifs with he
  · exact ⟨_, rfl, fun h => absurd rfl h⟩
  · refine ⟨_, rfl, fun _ => ?_⟩
    have hn := DisAssemble_opcode_n m a k (prefixFlags m a k 0 0)
    have hlo := (DisAssemble_operands_bounds m a (DisAssemble_opcode m a k (prefixFlags m a k 0 0)).n
      (DisAssemble_opcode m a k (prefixFlags m a k 0 0)).b
      (DisAssemble_opcode m a k (prefixFlags m a k 0 0)).f
      (by simp only [PREFIX_FUEL, U32] at hk ⊢; omega)).1
    have hhi : DisAssemble_operands m a (DisAssemble_opcode m a k (prefixFlags m a k 0 0)).n
        (DisAssemble_opcode m a k (prefixFlags m a k 0 0)).b
        (DisAssemble_opcode m a k (prefixFlags m a k 0 0)).f ≤ k + 11 := by
      rw [DisAssemble_opcode_cases m a k _ hf] at he ⊢
      split_ifs at he ⊢ with h0 h1 h2
      · exact le_trans (DisAssemble_operands_le m a _ _ _ 9
          (tailAtMost_0F _ (rd8_lt m _) he)) (by simp only []; omega)
      · have hb : rd8 m (a + k) ∈ [0xF6, 0xF7] := by simpa using h1
        exact le_trans (DisAssemble_operands_le m a _ _ _ 10 (tailAtMost_test _ hb).1)
          (by simp only []; omega)
      · have hb : rd8 m (a + k) ∈ [0xF6, 0xF7] := by simpa using h1
        exact le_trans (DisAssemble_operands_le m a _ _ _ 10 (tailAtMost_test _ hb).2)
          (by simp only []; omega)
      · exact le_trans (DisAssemble_operands_le m a _ _ _ 10
          (tailAtMost_table_1 _ (rd8_lt m _) _ hf)) (by simp only []; omega)
    simp only [PREFIX_FUEL] at hk
    omega

theorem DisAssemble_length_bounds_witness :
    ∃ n, DisAssemble testImm16Mem 0x1000 = some n ∧
      (n ≠ C_ERROR → 1 ≤ n ∧ 1 + 1 ≤ n ∧ n ≤ 1 + 11 ∧ n ≠ 0 ∧ n ≠ 0xFFFFFFFF) :=
  DisAssemble_length_bounds testImm16Mem 0x1000 1 (by decide) (by decide) (by decide)

set_option maxRecDepth 100000 in
theorem modrmTail_0F :
    ∀ b, b < 256 → table_0F.getD b 0 ≠ C_ERROR → modrmTail b (table_0F.getD b 0) := by
  decide

theorem modrmTail_test :
    ∀ b ∈ [0xF6, 0xF7], modrmTail b (C_MODRM + C_DATAW0) ∧ modrmTail b C_MODRM := by
  decide

set_option maxRecDepth 100000 in
theorem modrmTail_table_1 :
    ∀ b, b < 256 → ∀ f ∈ [0, 2], isPrefixByte b = false →
      modrmTail b (f ||| table_1.getD b 0) := by
  decide

set_option maxRecDepth 100000 in
theorem table_1_prefix_keeps_32bit :
    ∀ b, b < 256 → ∀ f ∈ [0, 2], isPrefixByte b = true → b ≠ 0x67 →
      (f ||| table_1.getD b 0) &&& (0xFFFFFFFF ^^^ C_PREFIX) ∈ [0, 2] := by
  decide

theorem prefixFlags_32bit (m : Mem) (a : Nat) :
    ∀ k n f, f ∈ [0, 2] →
      (∀ i, i < k → isPrefixByte (rd8 m (a + (n + i))) = true) →
      (∀ i, i < k → rd8 m (a + (n + i)) ≠ 0x67) →
      prefixFlags m a k n f ∈ [0, 2] := by
  intro k
  induction k with
  | zero => intro n f hf _ _; exact hf
  | succ k ih =>
    intro n f hf hrun h67
    have hp : isPrefixByte (rd8 m (a + n)) = true := by simpa using hrun 0 (by omega)
    have hn : rd8 m (a + n) ≠ 0x67 := by simpa using h67 0 (by omega)
    rw [prefixFlags]
    apply ih (n + 1) _ (table_1_prefix_keeps_32bit _ (rd8_lt m _) f hf hp hn)
    · intro i hi
      have := hrun (i + 1) (by omega)
      rwa [show n + (i + 1) = n + 1 + i from by omega] at this
    · intro i hi
      have := h67 (i + 1) (by omega)
      rwa [show n + (i + 1) = n + 1 + i from by omega] at this

theorem specDispBytes_eq (x y : Nat) : specDispBytes x y = memBytes (dispFlag32 x y) := by
  unfold specDispBytes memBytes dispFlag32
  split_ifs <;> first | rfl | (exfalso; revert ‹_›; decide) | skip
  all_goals simp_all [C_MEM1, C_MEM4]

theorem dispFlag32_mem (x y : Nat) : dispFlag32 x y ∈ [0, C_MEM1, C_MEM4] := by
  unfold dispFlag32; split_ifs <;> simp

/-- The operand part of an instruction with a ModRM byte and 32-bit addressing. -/
theorem DisAssemble_operands_modrm_32 (m : Mem) (a n b f : Nat) (hn : n + 13 < U32)
    (ht : modrmTail b f) (hm : f &&& C_MODRM ≠ 0) :
    DisAssemble_operands m a n b f =
      n + 1 + specSibBytes (rd8 m (a + n)) +
        specDispBytes (rd8 m (a + n)) (rd8 m (a + (n + 1))) +
        immBytes (DisAssemble_data66 (DisAssemble_dataw0 b f)) := by
  obtain ⟨h67, hiff, htail⟩ := ht
  have hr := DisAssemble_modrm_32 m a n (DisAssemble_dataw0 b f) h67
  rw [DisAssemble_operands_modrm m a n b f _ _ (hiff.mpr hm) hr,
    htail hm _ (dispFlag32_mem _ _), ← specDispBytes_eq]
  have h1 : specSibBytes (rd8 m (a + n)) ≤ 1 := by unfold specSibBytes; split_ifs <;> omega
  have h2 : specDispBytes (rd8 m (a + n)) (rd8 m (a + (n + 1))) ≤ 4 := by
    unfold specDispBytes; split_ifs <;> omega
  have h3 : immBytes (DisAssemble_data66 (DisAssemble_dataw0 b f)) ≤ 7 := by
    unfold immBytes; split_ifs <;> omega
  simp only [U32] at hn ⊢
  omega


/-- The flags of the opcode read after `k` prefix bytes without `67` behave as
`modrmTail` says. -/
theorem DisAssemble_opcode_modrmTail (m : Mem) (a k f : Nat) (hf : f ∈ [0, 2])
    (hop : isPrefixByte (rd8 m (a + k)) = false)
    (he : (DisAssemble_opcode m a k f).f ≠ C_ERROR) :
    modrmTail (DisAssemble_opcode m a k f).b (DisAssemble_opcode m a k f).f := by
  have hf4 : f ∈ [0, 2, 4, 6] := by
    simp only [List.mem_cons, List.mem_singleton, List.mem_nil_iff, or_false] at hf ⊢
    omega
  rw [DisAssemble_opcode_cases m a k f hf4] at he ⊢
  split_ifs at he ⊢ with h0 h1 h2
  · exact modrmTail_0F _ (rd8_lt m _) he
  · exact (modrmTail_test _ (by simpa using h1)).1
  · exact (modrmTail_test _ (by simpa using h1)).2
  · exact modrmTail_table_1 _ (rd8_lt m _) f hf hop

/-- C14. An instruction with `k` prefix bytes, none of them `67`, whose opcode carries
a ModRM byte: `DisAssemble` consumes the prefixes, the opcode bytes (two after the
escape `0F`, else one), the ModRM byte, the SIB byte and the displacement the
specification gives for 32-bit addressing, and the immediate bytes. -/
theorem DisAssemble_modrm_sib_displacement (m : Mem) (a k : Nat) (s : Decode)
    (hk : k < PREFIX_FUEL)
    (hrun : ∀ i, i < k → isPrefixByte (rd8 m (a + i)) = true)
    (h67 : ∀ i, i < k → rd8 m (a + i) ≠ 0x67)
    (hop : isPrefixByte (rd8 m (a + k)) = false)
    (hs : DisAssemble_opcode m a k (prefixFlags m a k 0 0) = s)
    (he : s.f ≠ C_ERROR) (hm : s.f &&& C_MODRM ≠ 0) :
    s.n = k + (if rd8 m (a + k) = 0x0F then 2 else 1) ∧
    DisAssemble m a = some (s.n + 1 + specSibBytes (rd8 m (a + s.n)) +
      specDispBytes (rd8 m (a + s.n)) (rd8 m (a + (s.n + 1))) +
      immBytes (DisAssemble_data66 (DisAssemble_dataw0 s.b s.f))) := by
  obtain ⟨hf4, hD⟩ := DisAssemble_after_prefixes m a k hk hrun hop
  have hf2 := prefixFlags_32bit m a k 0 0 (by decide) (fun i hi => by simpa using hrun i hi)
    (fun i hi => by simpa using h67 i hi)
  have hn := DisAssemble_opcode_n m a k (prefixFlags m a k 0 0)
  have ht := DisAssemble_opcode_modrmTail m a k _ hf2 hop (by rw [hs]; exact he)
  rw [hs] at hD hn ht
  constructor
  · rw [← hs, DisAssemble_opcode_cases m a k _ hf4]
    split_ifs <;> rfl
  · rw [hD, if_neg he, DisAssemble_operands_modrm_32 m a s.n s.b s.f
      (by simp only [PREFIX_FUEL, U32] at hk ⊢; omega) ht hm]

theorem DisAssemble_modrm_sib_displacement_witness :
    (⟨1, 0x8B, C_MODRM⟩ : Decode).n =
      0 + (if rd8 movSibMem (0x1000 + 0) = 0x0F then 2 else 1) ∧
    DisAssemble movSibMem 0x1000 =
      some ((⟨1, 0x8B, C_MODRM⟩ : Decode).n + 1 +
        specSibBytes (rd8 movSibMem (0x1000 + (⟨1, 0x8B, C_MODRM⟩ : Decode).n)) +
        specDispBytes (rd8 movSibMem (0x1000 + (⟨1, 0x8B, C_MODRM⟩ : Decode).n))
          (rd8 movSibMem (0x1000 + ((⟨1, 0x8B, C_MODRM⟩ : Decode).n + 1))) +
        immBytes (DisAssemble_data66 (DisAssemble_dataw0
          (⟨1, 0x8B, C_MODRM⟩ : Decode).b (⟨1, 0x8B, C_MODRM⟩ : Decode).f))) :=
  DisAssemble_modrm_sib_displacement movSibMem 0x1000 0 ⟨1, 0x8B, C_MODRM⟩
    (by decide) (by decide) (by decide) (by decide) rfl (by decide) (by decide)

set_option maxRecDepth 100000 in
theorem reg_field_zero : ∀ b, b < 256 → (b &&& 0x38 = 0 ↔ b / 8 % 8 = 0) := by
  decide

/-- C15. For an unprefixed `F6` or `F7` the decoded length is the opcode, the ModRM
byte, the SIB and displacement bytes, and then an immediate of 1 byte (`F6`) or 4
bytes (`F7`) when the `reg` field of the ModRM byte is `000`, and no immediate
otherwise. -/
theorem DisAssemble_F6_F7 (m : Mem) (a : Nat) (hb : rd8 m a = 0xF6 ∨ rd8 m a = 0xF7) :
    DisAssemble m a = some (1 + 1 + specSibBytes (rd8 m (a + 1)) +
      specDispBytes (rd8 m (a + 1)) (rd8 m (a + 2)) +
      (if rd8 m (a + 1) / 8 % 8 = 0 then (if rd8 m a = 0xF6 then 1 else 4) else 0)) := by
  have hop : isPrefixByte (rd8 m (a + 0)) = false := by
    rcases hb with h | h <;> rw [Nat.add_zero, h] <;> decide
  obtain ⟨_, hD⟩ := DisAssemble_after_prefixes m a 0 (by decide) (fun i hi => by omega) hop
  have hreg := reg_field_zero (rd8 m (a + 1)) (rd8_lt m _)
  have hne : rd8 m a ≠ 0x0F := by rcases hb with h | h <;> rw [h] <;> decide
  rw [hD, prefixFlags, DisAssemble_opcode_cases m a 0 0 (by decide)]
  simp only [Nat.add_zero, Nat.zero_add, if_neg hne, if_pos hb]
  by_cases h38 : rd8 m (a + 1) &&& 0x38 = 0
  · have hr : rd8 m (a + 1) / 8 % 8 = 0 := hreg.mp h38
    simp only [h38, hr, if_true]
    rw [if_neg (by decide), DisAssemble_operands_modrm_32 m a 1 _ _ (by decide)
      (modrmTail_test _ (by simpa using hb)).1 (by decide)]
    rcases hb with h | h <;> rw [h] <;> rfl
  · have hr : ¬ rd8 m (a + 1) / 8 % 8 = 0 := fun h => h38 (hreg.mpr h)
    simp only [h38, hr, if_false]
    rw [if_neg (by decide), DisAssemble_operands_modrm_32 m a 1 _ _ (by decide)
      (modrmTail_test _ (by simpa using hb)).2 (by decide)]
    rcases hb with h | h <;> rw [h] <;> rfl

theorem DisAssemble_F6_F7_witness :
    DisAssemble testImm32Mem 0x1000 = some (1 + 1 + specSibBytes (rd8 testImm32Mem (0x1000 + 1)) +
      specDispBytes (rd8 testImm32Mem (0x1000 + 1)) (rd8 testImm32Mem (0x1000 + 2)) +
      (if rd8 testImm32Mem (0x1000 + 1) / 8 % 8 = 0 then
        (if rd8 testImm32Mem 0x1000 = 0xF6 then 1 else 4) else 0)) :=
  DisAssemble_F6_F7 testImm32Mem 0x1000 (by decide)

/-! ### Prefix stacking -/

theorem DisAssemble_loop_mono (m : Mem) (a : Nat) :
    ∀ fuel n f r, DisAssemble_loop fuel m a n f = some r →
      DisAssemble_loop (fuel + 1) m a n f = some r := by
  intro fuel
  induction fuel with
  | zero => intro n f r h; simp [DisAssemble_loop] at h
  | succ fuel ih =>
    intro n f r h
    rw [DisAssemble_loop] at h ⊢
    split_ifs at h ⊢ with h1 h2
    · exact h
    · exact ih _ _ _ h
    · exact h

theorem DisAssemble_opcode_shift (m : Mem) (a n f : Nat) :
    DisAssemble_opcode m a (n + 1) f =
      ⟨(DisAssemble_opcode m (a + 1) n f).n + 1, (DisAssemble_opcode m (a + 1) n f).b,
        (DisAssemble_opcode m (a + 1) n f).f⟩ := by
  have e1 : a + (n + 1) = a + 1 + n := by omega
  have e2 : a + (n + 1 + 1) = a + 1 + (n + 1) := by omega
  unfold DisAssemble_opcode DisAssemble_test
  simp only [e1, e2]
  split_ifs <;> rfl

theorem DisAssemble_modrm_shift (m : Mem) (a n f : Nat) :
    DisAssemble_modrm m a (n + 1) f =
      ((DisAssemble_modrm m (a + 1) n f).1 + 1, (DisAssemble_modrm m (a + 1) n f).2) := by
  have e1 : a + (n + 1) = a + 1 + n := by omega
  have e2 : a + (n + 1 + 1) = a + 1 + (n + 1) := by omega
  unfold DisAssemble_modrm
  simp only [e1, e2]
  split_ifs <;> rfl

theorem DisAssemble_operands_shift (m : Mem) (a n b f : Nat) (hn : n + 17 < U32) :
    DisAssemble_operands m a (n + 1) b f = DisAssemble_operands m (a + 1) n b f + 1 := by
  unfold DisAssemble_operands
  simp only []
  by_cases hm : DisAssemble_dataw0 b f &&& C_MODRM ≠ 0
  · simp only [if_pos hm]
    rw [DisAssemble_modrm_shift]
    simp only []
    rw [DisAssemble_skip_zero, DisAssemble_skip_zero (DisAssemble_modrm m (a + 1) n _).1]
    have h14 := DisAssemble_skip_bounds 0
      (DisAssemble_data66 (DisAssemble_mem67 (DisAssemble_modrm m (a + 1) n (DisAssemble_dataw0 b f)).2))
    have h2 := DisAssemble_modrm_fst m (a + 1) n (DisAssemble_dataw0 b f)
    simp only [U32] at hn ⊢
    omega
  · simp only [if_neg hm]
    rw [DisAssemble_skip_zero, DisAssemble_skip_zero n]
    have h14 := DisAssemble_skip_bounds 0
      (DisAssemble_data66 (DisAssemble_mem67 (DisAssemble_dataw0 b f)))
    simp only [U32] at hn ⊢
    omega

theorem DisAssemble_loop_shift (m : Mem) (a : Nat) :
    ∀ fuel n f r, n + fuel + 19 < U32 → DisAssemble_loop fuel m a (n + 1) f = some r →
      (r = C_ERROR ∧ DisAssemble_loop fuel m (a + 1) n f = some C_ERROR) ∨
      (r ≠ C_ERROR ∧ ∃ r2, DisAssemble_loop fuel m (a + 1) n f = some r2 ∧ r2 ≠ C_ERROR ∧
        r = r2 + 1) := by
  intro fuel
  induction fuel with
  | zero => intro n f r _ h; simp [DisAssemble_loop] at h
  | succ fuel ih =>
    intro n f r hb h
    rw [DisAssemble_loop, DisAssemble_opcode_shift] at h
    rw [DisAssemble_loop]
    simp only [] at h ⊢
    have hn := DisAssemble_opcode_n m (a + 1) n f
    split_ifs at h ⊢ with h1 h2
    · simp only [Option.some.injEq] at h
      exact Or.inl ⟨h.symm, rfl⟩
    · have hn1 := DisAssemble_opcode_n_of_flag m (a + 1) n f h1 h2
      exact ih _ _ r (by omega) h
    · simp only [Option.some.injEq] at h
      right
      have hs := DisAssemble_operands_shift m a (DisAssemble_opcode m (a + 1) n f).n
        (DisAssemble_opcode m (a + 1) n f).b (DisAssemble_opcode m (a + 1) n f).f (by omega)
      have hbd := DisAssemble_operands_bounds m (a + 1) (DisAssemble_opcode m (a + 1) n f).n
        (DisAssemble_opcode m (a + 1) n f).b (DisAssemble_opcode m (a + 1) n f).f (by omega)
      rw [hs] at h
      refine ⟨?_, _, rfl, ?_, h.symm⟩
      · simp only [U32, C_ERROR] at hb ⊢; omega
      · simp only [U32, C_ERROR] at hb ⊢; omega

set_option maxRecDepth 100000 in
theorem table_1_plain_prefixes :
    ∀ b ∈ [0x26, 0x2E, 0x36, 0x3E, 0x64, 0x65, 0xF0, 0xF2, 0xF3],
      isPrefixByte b = true ∧ (0 ||| table_1.getD b 0) &&& (0xFFFFFFFF ^^^ C_PREFIX) = 0 := by
  decide

/-- C17. Prefix stacking: when the byte at `a` is a segment override, `LOCK` or
`REP`/`REPNE` prefix and `DisAssemble` at `a` completes, it fails exactly when
`DisAssemble` on the bytes that follow (at `a + 1`) fails, and otherwise returns 1 plus
the length `DisAssemble` returns there. -/
theorem DisAssemble_prefix_stacking (m : Mem) (a r : Nat)
    (hp : rd8 m a ∈ [0x26, 0x2E, 0x36, 0x3E, 0x64, 0x65, 0xF0, 0xF2, 0xF3])
    (hr : DisAssemble m a = some r) :
    (r = C_ERROR ↔ DisAssemble m (a + 1) = some C_ERROR) ∧
    (r ≠ C_ERROR → ∃ n, DisAssemble m (a + 1) = some n ∧ n ≠ C_ERROR ∧ r = 1 + n) := by
  obtain ⟨h1, h2⟩ := table_1_plain_prefixes _ hp
  unfold DisAssemble at hr ⊢
  rw [show PREFIX_FUEL = PREFIX_FUEL - 1 + 1 from by decide,
    DisAssemble_loop_prefix_step _ m a 0 0 (by decide) (by simpa using h1)] at hr
  simp only [Nat.add_zero, h2, Nat.zero_add] at hr
  have hs := DisAssemble_loop_shift m a (PREFIX_FUEL - 1) 0 0 r (by decide) hr
  rcases hs with ⟨he, hS⟩ | ⟨hne, r2, hS, hne2, hrr⟩
  · have := DisAssemble_loop_mono m (a + 1) _ _ _ _ hS
    rw [show PREFIX_FUEL - 1 + 1 = PREFIX_FUEL from by decide] at this
    exact ⟨⟨fun _ => this, fun _ => he⟩, fun h => absurd he h⟩
  · have := DisAssemble_loop_mono m (a + 1) _ _ _ _ hS
    rw [show PREFIX_FUEL - 1 + 1 = PREFIX_FUEL from by decide] at this
    refine ⟨⟨fun h => absurd h hne, fun h => ?_⟩, fun _ => ⟨r2, this, hne2, by omega⟩⟩
    rw [this] at h
    simp only [Option.some.injEq] at h
    exact absurd h hne2

theorem DisAssemble_prefix_stacking_witness :
    (2 = C_ERROR ↔ DisAssemble repMovsMem (0x1000 + 1) = some C_ERROR) ∧
    (2 ≠ C_ERROR →
      ∃ n, DisAssemble repMovsMem (0x1000 + 1) = some n ∧ n ≠ C_ERROR ∧ 2 = 1 + n) :=
  DisAssemble_prefix_stacking repMovsMem 0x1000 2 (by decide) (by decide)

/-! ### Pages `UnProtect` marks beyond the region -/

/-- C21 (the code departs from the claim). With 4096-byte pages, `UnProtect(0x1FFF, 1)`
and `UnProtect(0x1FFB, 5)` pass the pages `0x1000` and `0x2000` to `mprotect`,
although every byte of the region lies in the page `0x1000` and the page `0x2000`
holds none of them. -/
theorem UnProtect_marks_page_after_region :
    UnProtect 4096 0x1FFF 1 = [0x1000, 0x2000] ∧
    UnProtect 4096 0x1FFB 5 = [0x1000, 0x2000] ∧
    (∀ i, i < 5 → pageOf 4096 ((0x1FFB + i) % U32) = 0x1000) ∧
    (∀ i, i < 5 → ¬ (0x2000 ≤ (0x1FFB + i) % U32 ∧ (0x1FFB + i) % U32 < 0x2000 + 4096)) := by
  decide

/-! ### The trace of a patch operation -/

theorem GetLen_loop_ge (m : Mem) :
    ∀ fuel p s r, GetLen_loop fuel m p s = some r → 5 ≤ r := by
  intro fuel
  induction fuel with
  | zero =>
    intro p s r h
    rw [GetLen_loop] at h
    split_ifs at h with h5
    simp only [Option.some.injEq] at h
    omega
  | succ fuel ih =>
    intro p s r h
    rw [GetLen_loop] at h
    split_ifs at h with h5
    · cases hd : DisAssemble m p with
      | none => rw [hd] at h; simp at h
      | some n => rw [hd] at h; exact ih _ _ _ h
    · simp only [Option.some.injEq] at h
      omega

theorem mem_memcpy_trace (dst n x : Nat) :
    Effect.store x ∈ memcpy_trace dst n ↔ ∃ i, i < n ∧ x = (dst + i) % U32 := by
  unfold memcpy_trace
  simp only [List.mem_map, List.mem_range, Effect.store.injEq]
  constructor
  · rintro ⟨i, hi, h⟩; exact ⟨i, hi, h.symm⟩
  · rintro ⟨i, hi, h⟩; exact ⟨i, hi, h.symm⟩

theorem mem_wr32_trace (p x : Nat) :
    Effect.store x ∈ wr32_trace p ↔ ∃ i, i < 4 ∧ x = (p + i) % U32 := by
  unfold wr32_trace
  simp only [List.mem_cons, Effect.store.injEq, List.mem_singleton, List.mem_nil_iff, or_false]
  constructor
  · rintro (h | h | h | h)
    · exact ⟨0, by omega, by simpa using h⟩
    · exact ⟨1, by omega, h⟩
    · exact ⟨2, by omega, h⟩
    · exact ⟨3, by omega, h⟩
  · rintro ⟨i, hi, h⟩
    have h4 : i = 0 ∨ i = 1 ∨ i = 2 ∨ i = 3 := by omega
    rcases h4 with rfl | rfl | rfl | rfl
    · left; simpa using h
    · right; left; exact h
    · right; right; left; exact h
    · right; right; right; exact h

theorem mem_wr8_trace (p x : Nat) : Effect.store x ∈ wr8_trace p ↔ x = p % U32 := by
  unfold wr8_trace
  simp


theorem Patch_bracketed (m : Mem) (a v : Nat) :
    bracketed (fun _ => False) a 1 (Patch_trace a) ∧
      changedOnlyAt m (Patch m a v) (Patch_trace a) := by
  constructor
  · refine ⟨[], wr8_trace a, [], by simp [Patch_trace], ?_, by simp⟩
    intro e he
    refine ⟨0, by omega, ?_⟩
    simpa [wr8_trace] using he
  · intro x hx
    have : x = a % U32 := by
      by_contra hne
      exact hx (wr8_ne m a v x hne)
    simp [Patch_trace, wr8_trace, this]

theorem InlinePatch_bracketed (m : Mem) (a r : Nat) :
    bracketed (fun _ => False) a 5 (InlinePatch_trace a) ∧
      changedOnlyAt m (InlinePatch m a r).1 (InlinePatch_trace a) := by
  constructor
  · refine ⟨[], wr32_trace (a + 1), [], by simp [InlinePatch_trace], ?_, by simp⟩
    intro e he
    simp only [wr32_trace, List.mem_cons, List.mem_singleton, List.mem_nil_iff, or_false] at he
    rcases he with h | h | h | h
    · exact ⟨1, by omega, by rw [h]⟩
    · exact ⟨2, by omega, by rw [h]⟩
    · exact ⟨3, by omega, by rw [h]⟩
    · exact ⟨4, by omega, by rw [h]⟩
  · intro x hx
    have : ∃ i, i < 4 ∧ x = (a + 1 + i) % U32 := by
      by_contra hne
      apply hx
      unfold InlinePatch
      exact wr32_frame _ _ _ _ (fun i hi h => hne ⟨i, hi, h⟩)
    have hmem := (mem_wr32_trace (a + 1) x).mpr this
    simp only [InlinePatch_trace, List.mem_append]
    exact Or.inl (Or.inr hmem)

theorem Detach_bracketed (fuel : Nat) (m : Mem) (a tramp L : Nat)
    (hL : GetLen fuel m a = some L) :
    ∃ t m2, Detach_trace fuel m a tramp = some t ∧ Detach fuel m a tramp = some (m2, a) ∧
      bracketed (fun _ => False) a L t ∧ changedOnlyAt m m2 t := by
  refine ⟨_, _, by unfold Detach_trace; rw [hL], by unfold Detach; rw [hL], ?_, ?_⟩
  · refine ⟨[], memcpy_trace a L, [Effect.free tramp], by simp, ?_, ?_⟩
    · intro e he
      simp only [memcpy_trace, List.mem_map, List.mem_range] at he
      obtain ⟨i, hi, h⟩ := he
      exact ⟨i, hi, h.symm⟩
    · intro e he
      simp only [List.nil_append, List.mem_singleton] at he
      rw [he]
      trivial
  · intro x hx
    have : ∃ i, i < L ∧ x = (a + i) % U32 := by
      by_contra hne
      exact hx (memcpy_frame m a tramp L x (fun i hi h => hne ⟨i, hi, h⟩))
    have hmem := (mem_memcpy_trace a L x).mpr this
    simp only [List.mem_append]
    exact Or.inl (Or.inr hmem)

theorem Attach_bracketed (fuel : Nat) (malloc : Nat → Nat) (m : Mem) (a r L : Nat)
    (hL : GetLen fuel m a = some L) :
    5 ≤ L ∧ ∃ t m1 p, Attach_trace fuel malloc m a = some t ∧
      Attach fuel malloc m a r = some (m1, p) ∧
      bracketed (fun x => ∃ i, i < L + 5 ∧ x = (p + i) % U32) a L t ∧
      changedOnlyAt m m1 t := by
  have h5 : 5 ≤ L := GetLen_loop_ge m fuel a 0 L hL
  refine ⟨h5, _, _, _, by unfold Attach_trace; rw [hL], Attach_eq fuel malloc m a r L hL, ?_, ?_⟩
  · refine ⟨GetTramp_trace malloc L, wr8_trace a ++ wr32_trace (a + 1), [],
      by simp [List.append_assoc], ?_, ?_⟩
    · intro e he
      simp only [wr8_trace, wr32_trace, List.mem_append, List.mem_cons, List.mem_singleton,
        List.mem_nil_iff, or_false] at he
      rcases he with h | h | h | h | h
      · exact ⟨0, by omega, by rw [h]; rfl⟩
      · exact ⟨1, by omega, by rw [h]⟩
      · exact ⟨2, by omega, by rw [h]⟩
      · exact ⟨3, by omega, by rw [h]⟩
      · exact ⟨4, by omega, by rw [h]⟩
    · intro e he
      simp only [List.append_nil] at he
      unfold GetTramp_trace at he
      simp only [List.mem_append, List.mem_singleton] at he
      unfold GetTramp
      simp only []
      rcases he with ((h | h) | h) | h
      · rw [h]; trivial
      · simp only [memcpy_trace, List.mem_map, List.mem_range] at h
        obtain ⟨i, hi, h⟩ := h
        rw [← h]
        exact ⟨i, by omega, rfl⟩
      · simp only [wr8_trace, List.mem_singleton] at h
        rw [h]
        exact ⟨L, by omega, rfl⟩
      · simp only [wr32_trace, List.mem_cons, List.mem_singleton, List.mem_nil_iff,
          or_false] at h
        rcases h with h | h | h | h
        · rw [h]; exact ⟨L + 1, by omega, rfl⟩
        · rw [h]; exact ⟨L + 2, by omega, rfl⟩
        · rw [h]; exact ⟨L + 3, by omega, rfl⟩
        · rw [h]; exact ⟨L + 4, by omega, rfl⟩
  · intro x hx
    by_contra hne
    apply hx
    have hcode : ∀ i, i < 5 → x ≠ (a + i) % U32 := by
      intro i hi h
      apply hne
      have h5cases : i = 0 ∨ ∃ j, j < 4 ∧ i = 1 + j := by
        rcases Nat.eq_zero_or_pos i with h0 | h0
        · exact Or.inl h0
        · exact Or.inr ⟨i - 1, by omega, by omega⟩
      simp only [List.mem_append]
      rcases h5cases with rfl | ⟨j, hj, rfl⟩
      · exact Or.inl (Or.inl (Or.inr ((mem_wr8_trace a x).mpr (by simpa using h))))
      · exact Or.inl (Or.inr ((mem_wr32_trace (a + 1) x).mpr
          ⟨j, hj, by rw [h, Nat.add_assoc]⟩))
    have hheap : ∀ i, i < L + 5 → x ≠ ((GetTramp malloc m a L).2 + i) % U32 := by
      intro i hi h
      apply hne
      simp only [List.mem_append]
      refine Or.inl (Or.inl (Or.inl (Or.inl ?_)))
      unfold GetTramp at h
      simp only [] at h
      unfold GetTramp_trace
      simp only [List.mem_append]
      by_cases h1 : i < L
      · exact Or.inl (Or.inl (Or.inr ((mem_memcpy_trace _ L x).mpr ⟨i, h1, h⟩)))
      · by_cases h2 : i = L
        · exact Or.inl (Or.inr ((mem_wr8_trace _ x).mpr (by rw [h, h2])))
        · exact Or.inr ((mem_wr32_trace _ x).mpr ⟨i - (L + 1), by omega, by
            rw [h]; congr 1; omega⟩)
    rw [jump_frame _ _ _ _ hcode, GetTramp_frame _ _ _ _ _ hheap]


/-- C22. In `Attach`, `Detach`, `InlinePatch` and `Patch` the trace is one
`UnProtect(a, n)`, then the stores to code, all inside `[a, a+n)`, then one
`ReProtect(a, n)` with the same address and length: `n` is the Patch Length (at least
5) for the five bytes `Attach` stores, the length `Detach` recomputes for its copy, 5
for the four displacement bytes of `InlinePatch` and 1 for `Patch`. Outside the
bracket `Attach` stores only into its trampoline block and `Detach` only frees the
trampoline; every byte an operation changes is a store of its trace. -/
theorem patch_operations_bracket_their_stores (fuel : Nat) (malloc : Nat → Nat) (m : Mem)
    (a r tramp v L : Nat) (hL : GetLen fuel m a = some L) :
    (5 ≤ L ∧ ∃ t m1 p, Attach_trace fuel malloc m a = some t ∧
      Attach fuel malloc m a r = some (m1, p) ∧
      bracketed (fun x => ∃ i, i < L + 5 ∧ x = (p + i) % U32) a L t ∧
      changedOnlyAt m m1 t) ∧
    (∃ t m2, Detach_trace fuel m a tramp = some t ∧ Detach fuel m a tramp = some (m2, a) ∧
      bracketed (fun _ => False) a L t ∧ changedOnlyAt m m2 t) ∧
    (bracketed (fun _ => False) a 5 (InlinePatch_trace a) ∧
      changedOnlyAt m (InlinePatch m a r).1 (InlinePatch_trace a)) ∧
    (bracketed (fun _ => False) a 1 (Patch_trace a) ∧
      changedOnlyAt m (Patch m a v) (Patch_trace a)) :=
  ⟨Attach_bracketed fuel malloc m a r L hL, Detach_bracketed fuel m a tramp L hL,
    InlinePatch_bracketed m a r, Patch_bracketed m a v⟩

theorem patch_operations_bracket_their_stores_witness :
    (5 ≤ 6 ∧ ∃ t m1 p, Attach_trace 5 mallocAt prologueMem 0x1000 = some t ∧
      Attach 5 mallocAt prologueMem 0x1000 0x5000 = some (m1, p) ∧
      bracketed (fun x => ∃ i, i < 6 + 5 ∧ x = (p + i) % U32) 0x1000 6 t ∧
      changedOnlyAt prologueMem m1 t) ∧
    (∃ t m2, Detach_trace 5 prologueMem 0x1000 0x200000 = some t ∧
      Detach 5 prologueMem 0x1000 0x200000 = some (m2, 0x1000) ∧
      bracketed (fun _ => False) 0x1000 6 t ∧ changedOnlyAt prologueMem m2 t) ∧
    (bracketed (fun _ => False) 0x1000 5 (InlinePatch_trace 0x1000) ∧
      changedOnlyAt prologueMem (InlinePatch prologueMem 0x1000 0x5000).1
        (InlinePatch_trace 0x1000)) ∧
    (bracketed (fun _ => False) 0x1000 1 (Patch_trace 0x1000) ∧
      changedOnlyAt prologueMem (Patch prologueMem 0x1000 0x90) (Patch_trace 0x1000)) :=
  patch_operations_bracket_their_stores 5 mallocAt prologueMem 0x1000 0x5000 0x200000 0x90 6
    (by decide)

end DetourPatcher
